import Mathlib

/-!
# A verification development for the `jsonblite` storage engine

This file gives a shallow embedding of the `jsonblite` single-file key-value
store (source: `src/jsonblite.ts`, constants in `src/constants.ts`) and proves
or refutes the frozen claims about it.

Modelling decisions, stated once here:

* A file is a `List Nat` of bytes.  `fs.writeSync(fd, d, 0, d.length, pos)` is
  `writeAt`, which zero-fills any gap between the end of the file and `pos`
  (POSIX sparse-write semantics observed as zero bytes).
  `fs.readSync(fd, buf, 0, len, pos)` into a zero-initialised buffer is
  `readAt`, which zero-fills past end-of-file.
* The external CBOR codec (`cbor-x`) is modelled by a canonical CBOR
  encoder/decoder for the data shapes the engine actually stores: unsigned
  integers, text strings, the index map `Map<string, [offset, size]>`, and the
  journal transaction record.  `cbor-x` emits canonical minimal-length heads
  for these shapes.
* Timestamps are `Nat` (the code uses signed `BigInt64`; reachable values are
  the nonnegative `Date.now()` milliseconds, where the two views agree).
* Node `Buffer.writeUIntLE` would throw on out-of-range values; the model
  truncates modulo the field width instead, and theorems that read a field
  back carry the corresponding bound as a hypothesis.
-/

namespace JSONBLite

set_option maxRecDepth 100000

/-! ## Byte-level file model -/

/-- Zero-pad a byte list on the right to length at least `n`. -/
def padTo (f : List Nat) (n : Nat) : List Nat :=
  f ++ List.replicate (n - f.length) 0

/-- Model of `fs.writeSync(fd, d, 0, d.length, pos)`: overwrite bytes
`[pos, pos + d.length)`, zero-filling any gap before `pos`. -/
def writeAt (f : List Nat) (pos : Nat) (d : List Nat) : List Nat :=
  (padTo f pos).take pos ++ (d ++ f.drop (pos + d.length))

/-- Model of `fs.readSync(fd, buf, 0, len, pos)` into a zeroed buffer of
length `len`: bytes at `[pos, pos+len)`, zero past end-of-file. -/
def readAt (f : List Nat) (pos len : Nat) : List Nat :=
  (List.range len).map (fun i => f.getD (pos + i) 0)

@[simp] theorem padTo_length (f : List Nat) (n : Nat) :
    (padTo f n).length = max f.length n := by
  simp [padTo]
  omega

theorem padTo_getD (f : List Nat) (n i : Nat) :
    (padTo f n).getD i 0 = f.getD i 0 := by
  simp only [padTo, List.getD_eq_getElem?_getD]
  rcases lt_or_ge i f.length with h | h
  · rw [List.getElem?_append_left h]
  · rw [List.getElem?_append_right h, List.getElem?_eq_none h,
      List.getElem?_replicate]
    split <;> simp

@[simp] theorem writeAt_length (f : List Nat) (p : Nat) (d : List Nat) :
    (writeAt f p d).length = max f.length (p + d.length) := by
  simp only [writeAt, List.length_append, List.length_take, List.length_drop,
    padTo_length]
  omega

/-- Pointwise characterisation of `writeAt`. -/
theorem writeAt_getD (f : List Nat) (p : Nat) (d : List Nat) (i : Nat) :
    (writeAt f p d).getD i 0 =
      if i < p then f.getD i 0
      else if i < p + d.length then d.getD (i - p) 0
      else f.getD i 0 := by
  simp only [writeAt, List.getD_eq_getElem?_getD]
  have hlen : ((padTo f p).take p).length = p := by
    simp only [List.length_take, padTo_length]
    omega
  by_cases h1 : i < p
  · rw [List.getElem?_append_left (by omega), List.getElem?_take_of_lt h1]
    simp only [← List.getD_eq_getElem?_getD, padTo_getD, h1, if_pos]
  · rw [List.getElem?_append_right (by omega), hlen]
    by_cases h2 : i < p + d.length
    · rw [List.getElem?_append_left (by omega)]
      simp [h1, h2]
    · rw [List.getElem?_append_right (by omega), List.getElem?_drop]
      simp only [h1, h2, if_false]
      congr 2
      omega

@[simp] theorem readAt_length (f : List Nat) (p len : Nat) :
    (readAt f p len).length = len := by
  simp [readAt]

theorem readAt_getD (f : List Nat) (p len i : Nat) (h : i < len) :
    (readAt f p len).getD i 0 = f.getD (p + i) 0 := by
  simp [readAt, List.getD_eq_getElem?_getD, List.getElem?_map,
    List.getElem?_range h]

/-- Two byte lists of the same length with the same `getD` values are equal. -/
theorem byteList_ext {a b : List Nat} (hlen : a.length = b.length)
    (h : ∀ i, i < a.length → a.getD i 0 = b.getD i 0) : a = b := by
  apply List.ext_getElem hlen
  intro i h1 h2
  have := h i h1
  simpa [List.getD_eq_getElem?_getD, List.getElem?_eq_getElem, h1, h2] using this

theorem readAt_writeAt_self (f : List Nat) (p : Nat) (d : List Nat) :
    readAt (writeAt f p d) p d.length = d := by
  apply byteList_ext
  · simp
  · intro i hi
    simp at hi
    rw [readAt_getD _ _ _ _ hi, writeAt_getD]
    simp [hi]

theorem readAt_writeAt_left (f : List Nat) (p : Nat) (d : List Nat)
    (q len : Nat) (h : q + len ≤ p) :
    readAt (writeAt f p d) q len = readAt f q len := by
  apply byteList_ext
  · simp
  · intro i hi
    simp at hi
    rw [readAt_getD _ _ _ _ hi, readAt_getD _ _ _ _ hi, writeAt_getD]
    have : q + i < p := by omega
    simp [this]

theorem readAt_writeAt_right (f : List Nat) (p : Nat) (d : List Nat)
    (q len : Nat) (h : p + d.length ≤ q) :
    readAt (writeAt f p d) q len = readAt f q len := by
  apply byteList_ext
  · simp
  · intro i hi
    simp at hi
    rw [readAt_getD _ _ _ _ hi, readAt_getD _ _ _ _ hi, writeAt_getD]
    have h1 : ¬ q + i < p := by omega
    have h2 : ¬ q + i < p + d.length := by omega
    simp [h1, h2]

theorem readAt_readAt (f : List Nat) (p lenOuter q len : Nat)
    (h : q + len ≤ lenOuter) :
    readAt (readAt f p lenOuter) q len = readAt f (p + q) len := by
  apply byteList_ext
  · simp
  · intro i hi
    simp at hi
    rw [readAt_getD _ _ _ _ hi, readAt_getD _ _ _ _ hi,
      readAt_getD _ _ _ _ (by omega : q + i < lenOuter)]
    congr 1
    omega

/-! ## Little-endian integer fields (Node `Buffer` `readUIntLE` and friends) -/

/-- Little-endian byte encoding of `n` into `k` bytes (truncating mod `256^k`). -/
def natToLE : Nat → Nat → List Nat
  | 0, _ => []
  | k + 1, n => n % 256 :: natToLE k (n / 256)

/-- Little-endian byte list to `Nat`. -/
def leToNat : List Nat → Nat
  | [] => 0
  | b :: bs => b % 256 + 256 * leToNat bs

@[simp] theorem natToLE_length (k n : Nat) : (natToLE k n).length = k := by
  induction k generalizing n with
  | zero => rfl
  | succ k ih => simp [natToLE, ih]

theorem leToNat_natToLE (k n : Nat) : leToNat (natToLE k n) = n % 256 ^ k := by
  induction k generalizing n with
  | zero => simp [natToLE, leToNat, Nat.mod_one]
  | succ k ih =>
    simp only [natToLE, leToNat, ih, Nat.mod_mod_of_dvd _ (dvd_refl 256)]
    rw [pow_succ', Nat.mod_mul]

/-! ## Canonical CBOR (model of the external `cbor-x` codec) -/

/-- Big-endian byte encoding of `n` into `k` bytes. -/
def beBytes : Nat → Nat → List Nat
  | 0, _ => []
  | k + 1, n => beBytes k (n / 256) ++ [n % 256]

/-- Big-endian byte list to `Nat`. -/
def beToNat (l : List Nat) : Nat := l.foldl (fun acc b => 256 * acc + b) 0

@[simp] theorem beBytes_length (k n : Nat) : (beBytes k n).length = k := by
  induction k generalizing n with
  | zero => rfl
  | succ k ih => simp [beBytes, ih]

theorem beToNat_append_singleton (l : List Nat) (b : Nat) :
    beToNat (l ++ [b]) = 256 * beToNat l + b := by
  simp [beToNat, List.foldl_append]

theorem beToNat_beBytes (k n : Nat) (h : n < 256 ^ k) :
    beToNat (beBytes k n) = n := by
  induction k generalizing n with
  | zero =>
    interval_cases n
    rfl
  | succ k ih =>
    have hdiv : n / 256 < 256 ^ k := by
      rw [Nat.div_lt_iff_lt_mul (by norm_num)]
      calc n < 256 ^ (k + 1) := h
        _ = 256 ^ k * 256 := by ring
    rw [beBytes, beToNat_append_singleton, ih _ hdiv]
    omega

/-- Canonical (minimal-length) CBOR head for major type `major` and argument
`n`; this is what `cbor-x` emits for the shapes the engine stores. -/
def cborHead (major n : Nat) : List Nat :=
  if n < 24 then [32 * major + n]
  else if n < 256 then [32 * major + 24, n]
  else if n < 65536 then (32 * major + 25) :: beBytes 2 n
  else if n < 4294967296 then (32 * major + 26) :: beBytes 4 n
  else (32 * major + 27) :: beBytes 8 n

/-- Parse one CBOR head; returns `(major, argument, rest)`. -/
def decodeHead : List Nat → Option (Nat × Nat × List Nat)
  | [] => none
  | b :: rest =>
    let minor := b % 32
    if minor < 24 then some (b / 32, minor, rest)
    else if 27 < minor then none
    else
      let count := 2 ^ (minor - 24)
      if count ≤ rest.length then
        some (b / 32, beToNat (rest.take count), rest.drop count)
      else none

theorem headByte_div (major minor : Nat) (h : minor < 32) :
    (32 * major + minor) / 32 = major := by omega

theorem headByte_mod (major minor : Nat) (h : minor < 32) :
    (32 * major + minor) % 32 = minor := by omega

theorem decodeHead_cons (b : Nat) (rest : List Nat) :
    decodeHead (b :: rest) =
      if b % 32 < 24 then some (b / 32, b % 32, rest)
      else if 27 < b % 32 then none
      else if 2 ^ (b % 32 - 24) ≤ rest.length then
        some (b / 32, beToNat (rest.take (2 ^ (b % 32 - 24))),
          rest.drop (2 ^ (b % 32 - 24)))
      else none := rfl

@[simp] theorem beToNat_singleton (b : Nat) : beToNat [b] = b := by
  simp [beToNat]

theorem decodeHead_cborHead (major n : Nat) (t : List Nat) (hn : n < 2 ^ 64) :
    decodeHead (cborHead major n ++ t) = some (major, n, t) := by
  unfold cborHead
  by_cases h1 : n < 24
  · rw [if_pos h1, List.cons_append, List.nil_append, decodeHead_cons,
      headByte_mod major n (by omega), headByte_div major n (by omega), if_pos h1]
  · rw [if_neg h1]
    by_cases h2 : n < 256
    · rw [if_pos h2,
        show ([32 * major + 24, n] : List Nat) ++ t = (32 * major + 24) :: (n :: t) from rfl,
        decodeHead_cons, headByte_mod major 24 (by omega),
        headByte_div major 24 (by omega),
        if_neg (by omega : ¬ (24:Nat) < 24), if_neg (by omega : ¬ 27 < (24:Nat)),
        show (2:Nat) ^ (24 - 24) = 1 from rfl,
        if_pos (by simp : 1 ≤ (n :: t).length),
        show (n :: t).take 1 = [n] from rfl, show (n :: t).drop 1 = t from rfl,
        beToNat_singleton]
    · rw [if_neg h2]
      by_cases h3 : n < 65536
      · rw [if_pos h3, List.cons_append, decodeHead_cons,
          headByte_mod major 25 (by omega), headByte_div major 25 (by omega),
          if_neg (by omega : ¬ (25:Nat) < 24), if_neg (by omega : ¬ 27 < (25:Nat)),
          show (2:Nat) ^ (25 - 24) = 2 from rfl,
          if_pos (by simp : 2 ≤ (beBytes 2 n ++ t).length),
          List.take_left' (by simp), List.drop_left' (by simp),
          beToNat_beBytes 2 n (by norm_num; omega)]
      · rw [if_neg h3]
        by_cases h4 : n < 4294967296
        · rw [if_pos h4, List.cons_append, decodeHead_cons,
            headByte_mod major 26 (by omega), headByte_div major 26 (by omega),
            if_neg (by omega : ¬ (26:Nat) < 24), if_neg (by omega : ¬ 27 < (26:Nat)),
            show (2:Nat) ^ (26 - 24) = 4 from rfl,
            if_pos (by simp : 4 ≤ (beBytes 4 n ++ t).length),
            List.take_left' (by simp), List.drop_left' (by simp),
            beToNat_beBytes 4 n (by norm_num; omega)]
        · rw [if_neg h4, List.cons_append, decodeHead_cons,
            headByte_mod major 27 (by omega), headByte_div major 27 (by omega),
            if_neg (by omega : ¬ (27:Nat) < 24), if_neg (by omega : ¬ 27 < (27:Nat)),
            show (2:Nat) ^ (27 - 24) = 8 from rfl,
            if_pos (by simp : 8 ≤ (beBytes 8 n ++ t).length),
            List.take_left' (by simp), List.drop_left' (by simp),
            beToNat_beBytes 8 n (by norm_num; omega)]

@[simp] theorem cborHead_small (major n : Nat) (h : n < 24) :
    cborHead major n = [32 * major + n] := by
  simp [cborHead, h]

/-! ## Values and the index map -/

/-- Structured values stored by the engine, restricted to the CBOR shapes the
model exercises (unsigned integers and text strings).  The engine treats the
encoded value bytes opaquely, so further shapes would behave identically. -/
inductive Val where
  | vint (n : Nat)
  | vstr (s : List Nat)
deriving DecidableEq, Repr

/-- `cbor-x` encoding of a value. -/
def encodeVal : Val → List Nat
  | .vint n => cborHead 0 n
  | .vstr s => cborHead 3 s.length ++ s

/-- `cbor-x` decoding of a value region (the engine always slices exactly the
encoded length, so the decoder requires the bytes to be consumed exactly). -/
def decodeVal (bytes : List Nat) : Option Val :=
  match decodeHead bytes with
  | some (0, n, rest) => if rest = [] then some (.vint n) else none
  | some (3, len, rest) => if rest.length = len then some (.vstr rest) else none
  | _ => none

/-- The CBOR arguments of a value fit the 8-byte head. -/
def ValBounded : Val → Prop
  | .vint n => n < 2 ^ 64
  | .vstr s => s.length < 2 ^ 64

instance : DecidablePred ValBounded := fun v => by
  cases v <;> simp [ValBounded] <;> infer_instance

theorem decodeVal_encodeVal (v : Val) (h : ValBounded v) :
    decodeVal (encodeVal v) = some v := by
  cases v with
  | vint n =>
    have heq : encodeVal (.vint n) = cborHead 0 n ++ [] := by simp [encodeVal]
    rw [decodeVal, heq, decodeHead_cborHead 0 n [] h]
    rfl
  | vstr s =>
    rw [decodeVal, encodeVal, decodeHead_cborHead 3 s.length s h]
    simp

@[simp] theorem encodeVal_length_vstr (s : List Nat) :
    24 ≤ s.length → s.length < 256 → (encodeVal (.vstr s)).length = s.length + 2 := by
  intro h1 h2
  simp [encodeVal, cborHead, Nat.not_lt.mpr h1, h2]

/-- A key is the UTF-8 byte sequence of a JavaScript string. -/
abbrev Key := List Nat

/-- One entry of the in-memory index: key to `(offset, size)`, as in
`type IndexMap = Map<string, [number, number]>`.  The list order is the
`Map` insertion order. -/
abbrev IndexEntry := Key × Nat × Nat

abbrev Index := List IndexEntry

/-- `cbor-x` encoding of one index entry: text key, then the 2-element array
`[offset, size]`. -/
def encodeEntry (e : IndexEntry) : List Nat :=
  cborHead 3 e.1.length ++ (e.1 ++ (cborHead 4 2 ++ (cborHead 0 e.2.1 ++ cborHead 0 e.2.2)))

/-- `cbor-x` encoding of the index `Map` (major type 5, entries in insertion
order). -/
def encodeIndex (idx : Index) : List Nat :=
  cborHead 5 idx.length ++ (idx.map encodeEntry).flatten

/-- Parse `n` index entries; returns the entries and the unconsumed bytes. -/
def decodeEntries : Nat → List Nat → Option (Index × List Nat)
  | 0, rest => some ([], rest)
  | n + 1, bytes =>
    match decodeHead bytes with
    | some (3, klen, r1) =>
      if klen ≤ r1.length then
        match decodeHead (r1.drop klen) with
        | some (4, 2, r2) =>
          match decodeHead r2 with
          | some (0, off, r3) =>
            match decodeHead r3 with
            | some (0, sz, r4) =>
              match decodeEntries n r4 with
              | some (es, r5) => some ((r1.take klen, off, sz) :: es, r5)
              | none => none
            | _ => none
          | _ => none
        | _ => none
      else none
    | _ => none

/-- Model of the external codec decoding the index region: returns the map
only when the bytes are exactly one CBOR map of text keys to pairs of unsigned
integers.  Both `decode` throwing and `decode` yielding a non-`Map` value are
modelled as `none` (the engine raises on either). -/
def decodeIndex (bytes : List Nat) : Option Index :=
  match decodeHead bytes with
  | some (5, count, rest) =>
    match decodeEntries count rest with
    | some (idx, []) => some idx
    | _ => none
  | _ => none

/-- The CBOR arguments of an index entry fit the 8-byte head. -/
def EntryBounded (e : IndexEntry) : Prop :=
  e.1.length < 2 ^ 64 ∧ e.2.1 < 2 ^ 64 ∧ e.2.2 < 2 ^ 64

/-- All CBOR arguments appearing in the encoded index fit the 8-byte head. -/
def IndexBounded (idx : Index) : Prop :=
  idx.length < 2 ^ 64 ∧ ∀ e ∈ idx, EntryBounded e

instance : DecidablePred EntryBounded := fun e => by
  unfold EntryBounded
  infer_instance

instance : DecidablePred IndexBounded := fun idx => by
  unfold IndexBounded
  infer_instance

theorem decodeEntries_encode (idx : Index) (t : List Nat)
    (h : ∀ e ∈ idx, EntryBounded e) :
    decodeEntries idx.length ((idx.map encodeEntry).flatten ++ t) =
      some (idx, t) := by
  induction idx with
  | nil => simp [decodeEntries]
  | cons e es ih =>
    obtain ⟨hk, hoff, hsz⟩ := h e (List.mem_cons_self e es)
    have hes : ∀ x ∈ es, EntryBounded x := fun x hx => h x (List.mem_cons_of_mem e hx)
    rw [List.length_cons, List.map_cons, List.flatten_cons, List.append_assoc]
    rw [decodeEntries, encodeEntry, List.append_assoc,
      decodeHead_cborHead 3 e.1.length _ hk]
    simp only [if_pos (by simp : e.1.length ≤ (e.1 ++
        (cborHead 4 2 ++ (cborHead 0 e.2.1 ++ cborHead 0 e.2.2)) ++
        ((es.map encodeEntry).flatten ++ t)).length)]
    rw [List.append_assoc, List.take_left, List.drop_left]
    simp only [List.append_assoc,
      decodeHead_cborHead 4 2 _ (by norm_num : (2:Nat) < 2 ^ 64),
      decodeHead_cborHead 0 e.2.1 _ hoff,
      decodeHead_cborHead 0 e.2.2 _ hsz, ih hes]

theorem decodeIndex_encodeIndex (idx : Index) (h : IndexBounded idx) :
    decodeIndex (encodeIndex idx) = some idx := by
  obtain ⟨hlen, hentries⟩ := h
  rw [decodeIndex, encodeIndex,
    show (idx.map encodeEntry).flatten = (idx.map encodeEntry).flatten ++ [] by simp,
    decodeHead_cborHead 5 idx.length _ hlen]
  simp only [decodeEntries_encode idx [] hentries]

/-! ## Constants (from `src/constants.ts`) -/

def HEADER_MAGIC : List Nat := [0x6A, 0x73, 0x6F, 0x6E, 0x62, 0x6C, 0x69, 0x74, 0x65]

def HEADER_VERSION : List Nat := [1]

def HEADER_INDEX_SIZE_BYTES : Nat := 4

def HEADER_DATA_SIZE_BYTES : Nat := 6

def HEADER_SIZE : Nat := 36

def LOCATION_VERSION : Nat := 9

def LOCATION_INDEX_SIZE : Nat := 10

def LOCATION_DATA_SIZE : Nat := 14

def LOCATION_LAST_MODIFIED : Nat := 20

def LOCATION_LAST_VACUUM_TIMESTAMP : Nat := 28

/-- `encode(new Map())`, the CBOR empty map (one byte `0xA0`). -/
def INDEX_DEFAULT_CONTENT : List Nat := encodeIndex []

def DEFAULT_HEADER : List Nat :=
  HEADER_MAGIC ++ HEADER_VERSION ++ natToLE HEADER_INDEX_SIZE_BYTES INDEX_DEFAULT_CONTENT.length ++
    natToLE HEADER_DATA_SIZE_BYTES 0 ++ natToLE 8 0 ++ natToLE 8 0

def createDefaultHeader : List Nat := DEFAULT_HEADER

def DEFAULT_FILE_CONTENT : List Nat := DEFAULT_HEADER ++ INDEX_DEFAULT_CONTENT

def ERROR_INVALID_KEY : String := "Invalid key. Key must be a non-empty string."

/-! ## Buffer field accessors (Node `Buffer` integer methods, little-endian) -/

/-- `Buffer.readUIntLE(off, k)` / `readUInt32LE` / `readBigInt64LE` (the
timestamps are nonnegative in every reachable state, where the signed and
unsigned views agree). -/
def readUIntLE (buf : List Nat) (off k : Nat) : Nat := leToNat (readAt buf off k)

/-- `Buffer.writeUIntLE(v, off, k)` and friends (the model truncates
modulo `256^k`; Node would throw on out-of-range values). -/
def writeUIntLE (buf : List Nat) (v off k : Nat) : List Nat :=
  writeAt buf off (natToLE k v)

def headerDataSize (h : List Nat) : Nat :=
  readUIntLE h LOCATION_DATA_SIZE HEADER_DATA_SIZE_BYTES

def headerIndexSize (h : List Nat) : Nat :=
  readUIntLE h LOCATION_INDEX_SIZE HEADER_INDEX_SIZE_BYTES

def headerLastModified (h : List Nat) : Nat := readUIntLE h LOCATION_LAST_MODIFIED 8

def headerLastVacuum (h : List Nat) : Nat :=
  readUIntLE h LOCATION_LAST_VACUUM_TIMESTAMP 8

/-! ## The in-memory index as an insertion-ordered map (JavaScript `Map`) -/

/-- `Map.set`: overwrite in place (keeping the entry's insertion position) or
append a new entry at the end. -/
def setEntry (idx : Index) (k : Key) (v : Nat × Nat) : Index :=
  if idx.any (fun e => e.1 == k) then
    idx.map (fun e => if e.1 == k then (k, v) else e)
  else idx ++ [(k, v)]

/-- `Map.delete`: remove the entry if present. -/
def delEntry (idx : Index) (k : Key) : Index :=
  idx.filter (fun e => !(e.1 == k))

/-- `Map.get`. -/
def lookupEntry (idx : Index) (k : Key) : Option (Nat × Nat) :=
  (idx.find? (fun e => e.1 == k)).map (fun e => e.2)

/-! ## Handle state and transactions -/

/-- In-memory handle state (`class JSONBLite` fields) together with the
observable on-disk artefacts: the db file bytes and the journal file contents
(`none` = no `<db>.journal` on disk).  `filename` and `options` play no role
in the claims; file locking is not modelled since the claims are
single-handle. -/
structure DB where
  file : List Nat
  journal : Option (List Nat)
  header : List Nat
  index : Index
  dataTail : Nat
  lastModified : Nat
deriving DecidableEq, Repr, Inhabited

/-- The decoded `operation` field of a journal: the two known strings, or
anything else (which `performTransaction` rejects in its `default` branch). -/
inductive TxnOp where
  | write
  | delete
  | other
deriving DecidableEq, Repr

/-- `interface Transaction`. -/
structure Txn where
  key : Key
  operation : TxnOp
  data : Option (List Nat)
  index : List Nat
  header : List Nat
  dataOffset : Nat
deriving DecidableEq, Repr

/-- `nextLastModified()` (lines 168-171); `Date.now()` is passed as `now`. -/
def nextLastModified (now lastModified : Nat) : Nat :=
  if now > lastModified then now else lastModified + 1

/-- `performTransaction(transaction, fd)` (lines 192-209): positional
overwrites of the db file determined entirely by the transaction's fields.
A short header buffer or a data write at a negative offset would make
`fs.writeSync` throw, modelled by the guards. -/
def performTransaction (t : Txn) (file : List Nat) : Except String (List Nat) :=
  match t.operation with
  | .write =>
    match t.data with
    | none => .error "[JSONBLite] Missing transaction data for write"
    | some d =>
      if t.dataOffset < d.length then .error "RangeError: offset out of range"
      else if t.header.length < HEADER_SIZE then .error "RangeError: header out of range"
      else
        .ok (writeAt (writeAt (writeAt file (t.dataOffset - d.length) d) 0
          (t.header.take HEADER_SIZE)) t.dataOffset t.index)
  | .delete =>
      if t.header.length < HEADER_SIZE then .error "RangeError: header out of range"
      else .ok (writeAt (writeAt file 0 (t.header.take HEADER_SIZE)) t.dataOffset t.index)
  | .other => .error "[JSONBLite] Invalid operation"

/-- `buildHeaderAndIndex(fd)` (lines 88-111). -/
def buildHeaderAndIndex (db : DB) : Except String DB :=
  let nextHeader := readAt db.file 0 HEADER_SIZE
  let dataSize := readUIntLE nextHeader LOCATION_DATA_SIZE HEADER_DATA_SIZE_BYTES
  let indexSize := readUIntLE nextHeader LOCATION_INDEX_SIZE HEADER_INDEX_SIZE_BYTES
  let indexLocation := HEADER_SIZE + dataSize
  if indexLocation + indexSize > db.file.length then
    .error "[JSONBLite] File is truncated or corrupted"
  else
    match decodeIndex (readAt db.file indexLocation indexSize) with
    | none => .error "[JSONBLite] Invalid index format"
    | some idx =>
      .ok { db with
        header := nextHeader
        index := idx
        dataTail := indexLocation
        lastModified := readUIntLE nextHeader LOCATION_LAST_MODIFIED 8 }

/-! ## The journal codec

`beginTransaction` serialises the `Transaction` record with the external
codec and writes it to `<db>.journal`; recovery decodes those bytes.  The
model fixes the codec's wire format for this record shape: a 6-entry CBOR map
with the field names as text keys, `Buffer`s as CBOR byte strings, `null` as
CBOR null (`0xF6`).  Only decode success/failure and the decoded fields are
ever consumed by the engine. -/

def keyFieldName : List Nat := [107, 101, 121]

def operationFieldName : List Nat := [111, 112, 101, 114, 97, 116, 105, 111, 110]

def dataFieldName : List Nat := [100, 97, 116, 97]

def indexFieldName : List Nat := [105, 110, 100, 101, 120]

def headerFieldName : List Nat := [104, 101, 97, 100, 101, 114]

def dataOffsetFieldName : List Nat := [100, 97, 116, 97, 79, 102, 102, 115, 101, 116]

def writeOpText : List Nat := [119, 114, 105, 116, 101]

def deleteOpText : List Nat := [100, 101, 108, 101, 116, 101]

def encodeText (s : List Nat) : List Nat := cborHead 3 s.length ++ s

def encodeBytes (b : List Nat) : List Nat := cborHead 2 b.length ++ b

def encodeTxnOp : TxnOp → List Nat
  | .write => writeOpText
  | .delete => deleteOpText
  | .other => []

/-- `encode(transaction)` in `beginTransaction`. -/
def encodeTxn (t : Txn) : List Nat :=
  cborHead 5 6 ++
  (encodeText keyFieldName ++ (encodeText t.key ++
  (encodeText operationFieldName ++ (encodeText (encodeTxnOp t.operation) ++
  (encodeText dataFieldName ++
    ((match t.data with | none => [0xF6] | some d => encodeBytes d) ++
  (encodeText indexFieldName ++ (encodeBytes t.index ++
  (encodeText headerFieldName ++ (encodeBytes t.header ++
  (encodeText dataOffsetFieldName ++ cborHead 0 t.dataOffset)))))))))))

def decodeText (bytes : List Nat) : Option (List Nat × List Nat) :=
  match decodeHead bytes with
  | some (3, len, rest) =>
    if len ≤ rest.length then some (rest.take len, rest.drop len) else none
  | _ => none

def decodeBytes (bytes : List Nat) : Option (List Nat × List Nat) :=
  match decodeHead bytes with
  | some (2, len, rest) =>
    if len ≤ rest.length then some (rest.take len, rest.drop len) else none
  | _ => none

/-- Expect the text `name` as the next CBOR item; return the rest. -/
def decodeFieldName (name bytes : List Nat) : Option (List Nat) :=
  match decodeText bytes with
  | some (n, rest) => if n = name then some rest else none
  | none => none

def decodeDataField (bytes : List Nat) : Option (Option (List Nat) × List Nat) :=
  match bytes with
  | 246 :: rest => some (none, rest)
  | _ => (decodeBytes bytes).map (fun p => (some p.1, p.2))

/-- `decode(journalBuffer)` in `recoverWithFileDescriptor`; `none` models the
codec throwing on malformed bytes. -/
def decodeTxn (bytes : List Nat) : Option Txn :=
  match decodeHead bytes with
  | some (5, 6, r0) => do
    let r1 ← decodeFieldName keyFieldName r0
    let (k, r2) ← decodeText r1
    let r3 ← decodeFieldName operationFieldName r2
    let (opText, r4) ← decodeText r3
    let op := if opText = writeOpText then TxnOp.write
      else if opText = deleteOpText then TxnOp.delete else TxnOp.other
    let r5 ← decodeFieldName dataFieldName r4
    let (dataOpt, r6) ← decodeDataField r5
    let r7 ← decodeFieldName indexFieldName r6
    let (indexBytes, r8) ← decodeBytes r7
    let r9 ← decodeFieldName headerFieldName r8
    let (headerBytes, r10) ← decodeBytes r9
    let r11 ← decodeFieldName dataOffsetFieldName r10
    match decodeHead r11 with
    | some (0, dataOffset, r12) =>
      if r12 = [] then
        some { key := k, operation := op, data := dataOpt, index := indexBytes,
               header := headerBytes, dataOffset := dataOffset }
      else none
    | _ => none
  | _ => none

/-! ## Recovery, sync, and the public operations -/

/-- `recoverWithFileDescriptor(fd, journalPath)` followed by
`commitTransaction()` (lines 144-150, 211-216): decode the journal, re-apply
it to the db file, remove the journal.  Returns the new db file bytes; a
journal that fails to decode makes the decode throw (the error propagates and
nothing is written). -/
def recoverWithFile (file journalBytes : List Nat) : Except String (List Nat) :=
  match decodeTxn journalBytes with
  | none => .error "cbor-x: unexpected end of CBOR data"
  | some t => performTransaction t file

/-- `recover()` (lines 152-166): run by `read`, `keys` and `dump` before
taking the shared lock. -/
def recover (db : DB) : Except String DB :=
  match db.journal with
  | none => pure db
  | some j => do
      let f ← recoverWithFile db.file j
      buildHeaderAndIndex { db with file := f, journal := none }

/-- `sync(fd, recoverIfJournal)` (lines 173-184). -/
def sync (db : DB) (recoverIfJournal : Bool) : Except String DB := do
  let db1 ←
    match recoverIfJournal, db.journal with
    | true, some j => do
        let f ← recoverWithFile db.file j
        pure { db with file := f, journal := none }
    | _, _ => pure db
  if readUIntLE db1.file LOCATION_LAST_MODIFIED 8 ≠ db1.lastModified then
    buildHeaderAndIndex db1
  else pure db1

/-- `validateKey(key)` (lines 113-118); a key is modelled by its UTF-8 bytes,
so the non-empty-string check is a non-empty-list check. -/
def validateKey (k : Key) : Bool := decide (k.length ≠ 0)

/-- `write(key, value)` (lines 247-282).  The returned state is the committed
one: journal written by `beginTransaction` and removed by
`commitTransaction`. -/
def write (db : DB) (k : Key) (v : Val) (now : Nat) : Except String DB :=
  if ¬ validateKey k then .error ERROR_INVALID_KEY
  else do
    let db ← sync db true
    let serialized := encodeVal v
    let index1 := setEntry db.index k (db.dataTail, serialized.length)
    let indexBytes := encodeIndex index1
    let lastModified1 := nextLastModified now db.lastModified
    let dataTail1 := db.dataTail + serialized.length
    let header1 := writeUIntLE db.header lastModified1 LOCATION_LAST_MODIFIED 8
    let header2 := writeUIntLE header1 indexBytes.length LOCATION_INDEX_SIZE HEADER_INDEX_SIZE_BYTES
    let header3 := writeUIntLE header2 (dataTail1 - HEADER_SIZE) LOCATION_DATA_SIZE HEADER_DATA_SIZE_BYTES
    let t : Txn := { key := k, operation := .write, data := some serialized,
                     index := indexBytes, header := header3, dataOffset := dataTail1 }
    let file1 ← performTransaction t db.file
    pure { file := file1, journal := none, header := header3, index := index1,
           dataTail := dataTail1, lastModified := lastModified1 }

/-- `delete(key)` (lines 284-317). -/
def delete (db : DB) (k : Key) (now : Nat) : Except String DB :=
  if ¬ validateKey k then .error ERROR_INVALID_KEY
  else do
    let db ← sync db true
    let index1 := delEntry db.index k
    let indexBytes := encodeIndex index1
    let lastModified1 := nextLastModified now db.lastModified
    let header1 := writeUIntLE db.header indexBytes.length LOCATION_INDEX_SIZE HEADER_INDEX_SIZE_BYTES
    let header2 := writeUIntLE header1 lastModified1 LOCATION_LAST_MODIFIED 8
    let header3 := writeUIntLE header2 (db.dataTail - HEADER_SIZE) LOCATION_DATA_SIZE HEADER_DATA_SIZE_BYTES
    let t : Txn := { key := k, operation := .delete, data := none,
                     index := indexBytes, header := header3, dataOffset := db.dataTail }
    let file1 ← performTransaction t db.file
    pure { file := file1, journal := none, header := header3, index := index1,
           dataTail := db.dataTail, lastModified := lastModified1 }

/-- `read(key)` (lines 224-245): returns the (possibly rebuilt) handle state
and the decoded value, `none` modelling the `null` return for absent keys. -/
def read (db : DB) (k : Key) : Except String (DB × Option Val) :=
  if ¬ validateKey k then .error ERROR_INVALID_KEY
  else do
    let db1 ← recover db
    let db2 ← sync db1 false
    match lookupEntry db2.index k with
    | none => pure (db2, none)
    | some (off, sz) =>
      match decodeVal (readAt db2.file off sz) with
      | some v => pure (db2, some v)
      | none => .error "cbor-x: data read error"

/-- `keys()` (lines 356-367): the index keys in insertion order. -/
def keys (db : DB) : Except String (DB × List Key) := do
  let db1 ← recover db
  let db2 ← sync db1 false
  pure (db2, db2.index.map (fun e => e.1))

/-- One iteration of the vacuum copy loop (lines 385-391). -/
def vacuumStep (file : List Nat) (acc : List Nat × Index × Nat)
    (e : IndexEntry) : List Nat × Index × Nat :=
  (writeAt acc.1 acc.2.2 (readAt file e.2.1 e.2.2),
   setEntry acc.2.1 e.1 (acc.2.2, e.2.2),
   acc.2.2 + e.2.2)

/-- `vacuum()` (lines 369-428): rewrite live values densely into a temp file,
finalise its header and index, truncate, and rename it over the db file. -/
def vacuum (db : DB) (now : Nat) : Except String DB := do
  let db ← sync db true
  let temp0 := writeAt [] 0 createDefaultHeader
  let acc := db.index.foldl (vacuumStep db.file) (temp0, [], HEADER_SIZE)
  let temp1 := acc.1
  let newIndex := acc.2.1
  let newDataOffset := acc.2.2
  let indexBytes := encodeIndex newIndex
  let lastModified1 := nextLastModified now db.lastModified
  let header1 := writeUIntLE createDefaultHeader indexBytes.length LOCATION_INDEX_SIZE HEADER_INDEX_SIZE_BYTES
  let header2 := writeUIntLE header1 (newDataOffset - HEADER_SIZE) LOCATION_DATA_SIZE HEADER_DATA_SIZE_BYTES
  let header3 := writeUIntLE header2 lastModified1 LOCATION_LAST_MODIFIED 8
  let header4 := writeUIntLE header3 lastModified1 LOCATION_LAST_VACUUM_TIMESTAMP 8
  let temp2 := writeAt temp1 0 header4
  let temp3 := writeAt temp2 newDataOffset indexBytes
  let temp4 := (padTo temp3 (newDataOffset + indexBytes.length)).take (newDataOffset + indexBytes.length)
  pure { file := temp4, journal := db.journal, header := header4, index := newIndex,
         dataTail := newDataOffset, lastModified := lastModified1 }

/-- The constructor on a fresh path: `initializeFile()` writes
`DEFAULT_FILE_CONTENT` and runs `buildHeaderAndIndex` (lines 46-66, 76-86). -/
def initialDB : Except String DB :=
  buildHeaderAndIndex
    { file := DEFAULT_FILE_CONTENT, journal := none, header := createDefaultHeader,
      index := [], dataTail := HEADER_SIZE, lastModified := 0 }

def getOk (e : Except String DB) : DB :=
  match e with
  | .ok d => d
  | .error _ => default

/-! ## Basic facts about the model -/

/-- The handle agrees with the file: no pending journal and the cached
`last_modified` equals the on-disk field, so `sync` has nothing to do.  This
holds after every committed operation. -/
def Synced (db : DB) : Prop :=
  db.journal = none ∧ readUIntLE db.file LOCATION_LAST_MODIFIED 8 = db.lastModified

instance : DecidablePred Synced := fun db => by
  unfold Synced
  infer_instance

@[simp] theorem except_bind_ok {ε α β : Type} (a : α) (f : α → Except ε β) :
    (Except.ok a >>= f) = f a := rfl

@[simp] theorem except_bind_error {ε α β : Type} (e : ε) (f : α → Except ε β) :
    ((Except.error e : Except ε α) >>= f) = Except.error e := rfl

theorem recover_of_no_journal (db : DB) (h : db.journal = none) :
    recover db = .ok db := by
  unfold recover
  rw [h]
  rfl

theorem recover_of_synced (db : DB) (h : Synced db) : recover db = .ok db :=
  recover_of_no_journal db h.1

theorem sync_of_synced (db : DB) (h : Synced db) (b : Bool) : sync db b = .ok db := by
  obtain ⟨h1, h2⟩ := h
  unfold sync
  cases b <;> simp [h1, h2, Except.bind, pure, Except.pure]

theorem nextLastModified_gt (now last : Nat) : last < nextLastModified now last := by
  unfold nextLastModified
  split <;> omega

/-- Idempotence of a chain of two positional overwrites. -/
theorem writeAt2_idem (f : List Nat) (p2 p3 : Nat) (d2 d3 : List Nat) :
    writeAt (writeAt (writeAt (writeAt f p2 d2) p3 d3) p2 d2) p3 d3 =
      writeAt (writeAt f p2 d2) p3 d3 := by
  apply byteList_ext
  · simp only [writeAt_length]
    omega
  · intro i _
    simp only [writeAt_getD]
    split_ifs <;> rfl

/-- Idempotence of a chain of three positional overwrites. -/
theorem writeAt3_idem (f : List Nat) (p1 p2 p3 : Nat) (d1 d2 d3 : List Nat) :
    writeAt (writeAt (writeAt (writeAt (writeAt (writeAt f p1 d1) p2 d2) p3 d3) p1 d1) p2 d2) p3 d3 =
      writeAt (writeAt (writeAt f p1 d1) p2 d2) p3 d3 := by
  apply byteList_ext
  · simp only [writeAt_length]
    omega
  · intro i _
    simp only [writeAt_getD]
    split_ifs <;> rfl

/-- C6: re-applying a journal transaction that applied successfully leaves
the file bytes fixed, because every apply step is a positional overwrite
determined entirely by the transaction's own fields. -/
theorem performTransaction_idempotent (t : Txn) (f f' : List Nat)
    (h : performTransaction t f = .ok f') :
    performTransaction t f' = .ok f' := by
  obtain ⟨k, op, data, idx, hdr, off⟩ := t
  cases op with
  | write =>
    cases data with
    | none => simp [performTransaction] at h
    | some d =>
      simp only [performTransaction] at h ⊢
      by_cases h1 : off < d.length
      · simp [h1] at h
      · by_cases h2 : hdr.length < HEADER_SIZE
        · simp [h1, h2] at h
        · simp only [if_neg h1, if_neg h2, Except.ok.injEq] at h ⊢
          subst h
          rw [writeAt3_idem]
  | delete =>
    simp only [performTransaction] at h ⊢
    by_cases h2 : hdr.length < HEADER_SIZE
    · simp [h2] at h
    · simp only [if_neg h2, Except.ok.injEq] at h ⊢
      subst h
      rw [writeAt2_idem]
  | other => simp [performTransaction] at h

/-! ## Index map lemmas -/

theorem lookupEntry_cons (e : IndexEntry) (es : Index) (k : Key) :
    lookupEntry (e :: es) k = if e.1 == k then some e.2 else lookupEntry es k := by
  cases he : e.1 == k <;> simp [lookupEntry, List.find?_cons, he]

theorem lookupEntry_setEntry_self (idx : Index) (k : Key) (v : Nat × Nat) :
    lookupEntry (setEntry idx k v) k = some v := by
  unfold setEntry
  by_cases hany : idx.any (fun e => e.1 == k)
  · rw [if_pos hany]
    induction idx with
    | nil => simp at hany
    | cons e es ih =>
      simp only [List.map_cons]
      by_cases he : e.1 == k
      · rw [if_pos he, lookupEntry_cons]
        simp
      · rw [if_neg he, lookupEntry_cons, if_neg (by simpa using he)]
        apply ih
        simp only [List.any_cons, he, Bool.false_or] at hany
        exact hany
  · rw [if_neg hany]
    induction idx with
    | nil =>
      rw [List.nil_append, lookupEntry_cons]
      simp
    | cons e es ih =>
      simp only [List.any_cons, Bool.or_eq_true, not_or] at hany
      rw [List.cons_append, lookupEntry_cons, if_neg (by simpa using hany.1)]
      exact ih (by simp [hany.2])

theorem lookupEntry_setEntry_other (idx : Index) (k k' : Key) (v : Nat × Nat)
    (h : ¬ k' = k) : lookupEntry (setEntry idx k v) k' = lookupEntry idx k' := by
  unfold setEntry
  by_cases hany : idx.any (fun e => e.1 == k)
  · rw [if_pos hany]
    clear hany
    induction idx with
    | nil => rfl
    | cons e es ih =>
      simp only [List.map_cons]
      by_cases he : e.1 == k
      · have he1 : e.1 = k := by simpa using he
        rw [if_pos he, lookupEntry_cons, lookupEntry_cons, he1]
        rw [if_neg (by simp; exact fun hh => h hh.symm),
          if_neg (by simp; exact fun hh => h hh.symm)]
        exact ih
      · rw [if_neg he, lookupEntry_cons, lookupEntry_cons]
        by_cases he' : e.1 == k'
        · rw [if_pos he', if_pos he']
        · rw [if_neg (by simpa using he'), if_neg (by simpa using he')]
          exact ih
  · rw [if_neg hany]
    induction idx with
    | nil =>
      rw [List.nil_append, lookupEntry_cons,
        if_neg (by simp; exact fun hh => h hh.symm)]
    | cons e es ih =>
      simp only [List.any_cons, Bool.or_eq_true, not_or] at hany
      rw [List.cons_append, lookupEntry_cons, lookupEntry_cons]
      by_cases he' : e.1 == k'
      · rw [if_pos he', if_pos he']
      · rw [if_neg (by simpa using he'), if_neg (by simpa using he')]
        exact ih (by simp [hany.2])

theorem lookupEntry_delEntry_self (idx : Index) (k : Key) :
    lookupEntry (delEntry idx k) k = none := by
  unfold delEntry
  induction idx with
  | nil => rfl
  | cons e es ih =>
    by_cases he : e.1 == k
    · rw [List.filter_cons_of_neg (by simp [he])]
      exact ih
    · rw [List.filter_cons_of_pos (by simp [he]), lookupEntry_cons,
        if_neg (by simpa using he)]
      exact ih

theorem lookupEntry_delEntry_other (idx : Index) (k k' : Key) (h : ¬ k' = k) :
    lookupEntry (delEntry idx k) k' = lookupEntry idx k' := by
  unfold delEntry
  induction idx with
  | nil => rfl
  | cons e es ih =>
    by_cases he : e.1 == k
    · have he1 : e.1 = k := by simpa using he
      rw [List.filter_cons_of_neg (by simp [he]), lookupEntry_cons,
        if_neg (by simp [he1]; exact fun hh => h hh.symm)]
      exact ih
    · rw [List.filter_cons_of_pos (by simp [he]), lookupEntry_cons, lookupEntry_cons]
      by_cases he' : e.1 == k'
      · rw [if_pos he', if_pos he']
      · rw [if_neg (by simpa using he'), if_neg (by simpa using he')]
        exact ih

theorem lookupEntry_eq_none_iff (idx : Index) (k : Key) :
    lookupEntry idx k = none ↔ idx.any (fun e => e.1 == k) = false := by
  simp [lookupEntry, List.find?_eq_none, List.any_eq_false]

/-- `Map.set` on a present key keeps the insertion order of keys unchanged. -/
theorem map_fst_setEntry_of_present (idx : Index) (k : Key) (v : Nat × Nat)
    (hany : idx.any (fun e => e.1 == k) = true) :
    (setEntry idx k v).map (fun e => e.1) = idx.map (fun e => e.1) := by
  unfold setEntry
  rw [if_pos hany, List.map_map]
  apply List.map_congr_left
  intro e _
  by_cases he : e.1 == k
  · have he1 : e.1 = k := by simpa using he
    simp [he, he1]
  · have he1 : ¬ e.1 = k := by simpa using he
    simp [he, he1]

/-! ## Field access lemmas -/

theorem readAt_writeAt_within (f : List Nat) (p : Nat) (d : List Nat)
    (q len : Nat) (h : q + len ≤ d.length) :
    readAt (writeAt f p d) (p + q) len = readAt d q len := by
  apply byteList_ext
  · simp
  · intro i hi
    simp only [readAt_length] at hi
    rw [readAt_getD _ _ _ _ hi, readAt_getD _ _ _ _ hi, writeAt_getD]
    have h1 : ¬ p + q + i < p := by omega
    have h2 : p + q + i < p + d.length := by omega
    simp only [h1, h2, if_false, if_true, if_neg, if_pos]
    congr 1
    omega

@[simp] theorem writeUIntLE_length (buf : List Nat) (v off k : Nat) :
    (writeUIntLE buf v off k).length = max buf.length (off + k) := by
  simp [writeUIntLE]

theorem readUIntLE_writeUIntLE_self (buf : List Nat) (v off k : Nat) :
    readUIntLE (writeUIntLE buf v off k) off k = v % 256 ^ k := by
  unfold readUIntLE writeUIntLE
  have h := readAt_writeAt_self buf off (natToLE k v)
  rw [natToLE_length] at h
  rw [h, leToNat_natToLE]

theorem readUIntLE_writeUIntLE_left (buf : List Nat) (v off k off' k' : Nat)
    (h : off' + k' ≤ off) :
    readUIntLE (writeUIntLE buf v off k) off' k' = readUIntLE buf off' k' := by
  unfold readUIntLE writeUIntLE
  rw [readAt_writeAt_left _ _ _ _ _ h]

theorem readUIntLE_writeUIntLE_right (buf : List Nat) (v off k off' k' : Nat)
    (h : off + k ≤ off') :
    readUIntLE (writeUIntLE buf v off k) off' k' = readUIntLE buf off' k' := by
  unfold readUIntLE writeUIntLE
  rw [readAt_writeAt_right _ _ _ _ _ (by simpa using h)]

theorem readAt_writeAt_zero_within (f d : List Nat) (q len : Nat)
    (h : q + len ≤ d.length) :
    readAt (writeAt f 0 d) q len = readAt d q len := by
  have h2 := readAt_writeAt_within f 0 d q len h
  simpa using h2

/-- Reading a field of the file that lies inside the 36-byte header written
at offset 0. -/
theorem readUIntLE_file_header (f hdr : List Nat) (off k : Nat)
    (h : off + k ≤ hdr.length) :
    readUIntLE (writeAt f 0 hdr) off k = readUIntLE hdr off k := by
  unfold readUIntLE
  rw [readAt_writeAt_zero_within _ _ _ _ h]

/-! ## Characterisation of committed `write` and `delete` -/

/-- The committed state of a successful `write` from a synced handle: the
`let` chain of lines 255-277 made explicit. -/
def writeResult (db : DB) (k : Key) (v : Val) (now : Nat) : DB :=
  let serialized := encodeVal v
  let index1 := setEntry db.index k (db.dataTail, serialized.length)
  let indexBytes := encodeIndex index1
  let lastModified1 := nextLastModified now db.lastModified
  let dataTail1 := db.dataTail + serialized.length
  let header3 := writeUIntLE (writeUIntLE (writeUIntLE db.header lastModified1
    LOCATION_LAST_MODIFIED 8) indexBytes.length LOCATION_INDEX_SIZE
    HEADER_INDEX_SIZE_BYTES) (dataTail1 - HEADER_SIZE) LOCATION_DATA_SIZE
    HEADER_DATA_SIZE_BYTES
  { file := writeAt (writeAt (writeAt db.file (dataTail1 - serialized.length)
      serialized) 0 (header3.take HEADER_SIZE)) dataTail1 indexBytes
    journal := none
    header := header3
    index := index1
    dataTail := dataTail1
    lastModified := lastModified1 }

/-- The committed state of a successful `delete` from a synced handle: the
`let` chain of lines 292-312 made explicit. -/
def deleteResult (db : DB) (k : Key) (now : Nat) : DB :=
  let index1 := delEntry db.index k
  let indexBytes := encodeIndex index1
  let lastModified1 := nextLastModified now db.lastModified
  let header3 := writeUIntLE (writeUIntLE (writeUIntLE db.header
    indexBytes.length LOCATION_INDEX_SIZE HEADER_INDEX_SIZE_BYTES)
    lastModified1 LOCATION_LAST_MODIFIED 8) (db.dataTail - HEADER_SIZE)
    LOCATION_DATA_SIZE HEADER_DATA_SIZE_BYTES
  { file := writeAt (writeAt db.file 0 (header3.take HEADER_SIZE)) db.dataTail indexBytes
    journal := none
    header := header3
    index := index1
    dataTail := db.dataTail
    lastModified := lastModified1 }

theorem write_ok (db : DB) (k : Key) (v : Val) (now : Nat)
    (hk : validateKey k = true) (hsync : Synced db)
    (hhdr : HEADER_SIZE ≤ db.header.length) :
    write db k v now = .ok (writeResult db k v now) := by
  unfold write
  rw [if_neg (by simp [hk]), sync_of_synced db hsync true, except_bind_ok]
  have hguard1 : ¬ db.dataTail + (encodeVal v).length < (encodeVal v).length := by omega
  have hguard2 : ¬ (writeUIntLE (writeUIntLE (writeUIntLE db.header
      (nextLastModified now db.lastModified) LOCATION_LAST_MODIFIED 8)
      (encodeIndex (setEntry db.index k (db.dataTail, (encodeVal v).length))).length
      LOCATION_INDEX_SIZE HEADER_INDEX_SIZE_BYTES)
      (db.dataTail + (encodeVal v).length - HEADER_SIZE) LOCATION_DATA_SIZE
      HEADER_DATA_SIZE_BYTES).length < HEADER_SIZE := by
    simp only [writeUIntLE_length]
    unfold HEADER_SIZE at hhdr ⊢
    omega
  simp only [performTransaction, if_neg hguard1, if_neg hguard2, writeResult]
  rfl

theorem delete_ok (db : DB) (k : Key) (now : Nat)
    (hk : validateKey k = true) (hsync : Synced db)
    (hhdr : HEADER_SIZE ≤ db.header.length) :
    delete db k now = .ok (deleteResult db k now) := by
  unfold delete
  rw [if_neg (by simp [hk]), sync_of_synced db hsync true, except_bind_ok]
  have hguard2 : ¬ (writeUIntLE (writeUIntLE (writeUIntLE db.header
      (encodeIndex (delEntry db.index k)).length LOCATION_INDEX_SIZE
      HEADER_INDEX_SIZE_BYTES) (nextLastModified now db.lastModified)
      LOCATION_LAST_MODIFIED 8) (db.dataTail - HEADER_SIZE) LOCATION_DATA_SIZE
      HEADER_DATA_SIZE_BYTES).length < HEADER_SIZE := by
    simp only [writeUIntLE_length]
    unfold HEADER_SIZE at hhdr ⊢
    omega
  simp only [performTransaction, if_neg hguard2, deleteResult]
  rfl

/-- `vacuum`'s committed state from a synced handle: the body of lines
378-417 made explicit. -/
def vacuumResult (db : DB) (now : Nat) : DB :=
  let temp0 := writeAt [] 0 createDefaultHeader
  let acc := db.index.foldl (vacuumStep db.file) (temp0, [], HEADER_SIZE)
  let indexBytes := encodeIndex acc.2.1
  let lastModified1 := nextLastModified now db.lastModified
  let header4 := writeUIntLE (writeUIntLE (writeUIntLE (writeUIntLE
    createDefaultHeader indexBytes.length LOCATION_INDEX_SIZE
    HEADER_INDEX_SIZE_BYTES) (acc.2.2 - HEADER_SIZE) LOCATION_DATA_SIZE
    HEADER_DATA_SIZE_BYTES) lastModified1 LOCATION_LAST_MODIFIED 8)
    lastModified1 LOCATION_LAST_VACUUM_TIMESTAMP 8
  { file := (padTo (writeAt (writeAt acc.1 0 header4) acc.2.2 indexBytes)
      (acc.2.2 + indexBytes.length)).take (acc.2.2 + indexBytes.length)
    journal := db.journal
    header := header4
    index := acc.2.1
    dataTail := acc.2.2
    lastModified := lastModified1 }

theorem vacuum_ok (db : DB) (now : Nat) (hsync : Synced db) :
    vacuum db now = .ok (vacuumResult db now) := by
  unfold vacuum vacuumResult
  rw [sync_of_synced db hsync true, except_bind_ok]
  rfl

/-! ## The committed states are synced -/

theorem readUIntLE_commitFile_lastModified (f h36 : List Nat) (p : Nat)
    (d : List Nat) (hlen : HEADER_SIZE ≤ h36.length) (hp : 28 ≤ p) :
    readUIntLE (writeAt (writeAt f 0 h36) p d) LOCATION_LAST_MODIFIED 8 =
      readUIntLE h36 LOCATION_LAST_MODIFIED 8 := by
  unfold readUIntLE LOCATION_LAST_MODIFIED
  rw [readAt_writeAt_left _ _ _ _ _ (by omega)]
  rw [readAt_writeAt_zero_within _ _ _ _ (by unfold HEADER_SIZE at hlen; omega)]

theorem writeResult_header_length (db : DB) (k : Key) (v : Val) (now : Nat)
    (hhdr : db.header.length = HEADER_SIZE) :
    (writeResult db k v now).header.length = HEADER_SIZE := by
  show (writeUIntLE (writeUIntLE (writeUIntLE db.header _ _ _) _ _ _) _ _ _).length = _
  simp only [writeUIntLE_length, hhdr]
  decide

theorem deleteResult_header_length (db : DB) (k : Key) (now : Nat)
    (hhdr : db.header.length = HEADER_SIZE) :
    (deleteResult db k now).header.length = HEADER_SIZE := by
  show (writeUIntLE (writeUIntLE (writeUIntLE db.header _ _ _) _ _ _) _ _ _).length = _
  simp only [writeUIntLE_length, hhdr]
  decide

theorem headerLastModified_writeResult (db : DB) (k : Key) (v : Val) (now : Nat) :
    headerLastModified (writeResult db k v now).header =
      nextLastModified now db.lastModified % 2 ^ 64 := by
  show headerLastModified
    (writeUIntLE (writeUIntLE (writeUIntLE db.header _ LOCATION_LAST_MODIFIED 8) _
      LOCATION_INDEX_SIZE HEADER_INDEX_SIZE_BYTES) _ LOCATION_DATA_SIZE
      HEADER_DATA_SIZE_BYTES) = _
  unfold headerLastModified
  rw [readUIntLE_writeUIntLE_right _ _ _ _ _ _ (by decide),
    readUIntLE_writeUIntLE_right _ _ _ _ _ _ (by decide),
    readUIntLE_writeUIntLE_self]
  norm_num

theorem headerLastModified_deleteResult (db : DB) (k : Key) (now : Nat) :
    headerLastModified (deleteResult db k now).header =
      nextLastModified now db.lastModified % 2 ^ 64 := by
  show headerLastModified
    (writeUIntLE (writeUIntLE (writeUIntLE db.header _ LOCATION_INDEX_SIZE
      HEADER_INDEX_SIZE_BYTES) _ LOCATION_LAST_MODIFIED 8) _ LOCATION_DATA_SIZE
      HEADER_DATA_SIZE_BYTES) = _
  unfold headerLastModified
  rw [readUIntLE_writeUIntLE_right _ _ _ _ _ _ (by decide),
    readUIntLE_writeUIntLE_self]
  norm_num

theorem synced_writeResult (db : DB) (k : Key) (v : Val) (now : Nat)
    (hhdr : db.header.length = HEADER_SIZE) (hdt : HEADER_SIZE ≤ db.dataTail)
    (hbound : nextLastModified now db.lastModified < 2 ^ 64) :
    Synced (writeResult db k v now) := by
  refine ⟨rfl, ?_⟩
  have hl := writeResult_header_length db k v now hhdr
  have htake : (writeResult db k v now).header.take HEADER_SIZE =
      (writeResult db k v now).header := by
    rw [← hl]
    exact List.take_length _
  show readUIntLE (writeAt (writeAt _ 0 ((writeResult db k v now).header.take HEADER_SIZE))
    (db.dataTail + (encodeVal v).length) _) LOCATION_LAST_MODIFIED 8 = _
  rw [readUIntLE_commitFile_lastModified _ _ _ _ (by rw [htake, hl])
    (by unfold HEADER_SIZE at hdt; omega), htake]
  show headerLastModified (writeResult db k v now).header = _
  rw [headerLastModified_writeResult, Nat.mod_eq_of_lt hbound]
  rfl

theorem synced_deleteResult (db : DB) (k : Key) (now : Nat)
    (hhdr : db.header.length = HEADER_SIZE) (hdt : HEADER_SIZE ≤ db.dataTail)
    (hbound : nextLastModified now db.lastModified < 2 ^ 64) :
    Synced (deleteResult db k now) := by
  refine ⟨rfl, ?_⟩
  have hl := deleteResult_header_length db k now hhdr
  have htake : (deleteResult db k now).header.take HEADER_SIZE =
      (deleteResult db k now).header := by
    rw [← hl]
    exact List.take_length _
  show readUIntLE (writeAt (writeAt _ 0 ((deleteResult db k now).header.take HEADER_SIZE))
    db.dataTail _) LOCATION_LAST_MODIFIED 8 = _
  rw [readUIntLE_commitFile_lastModified _ _ _ _ (by rw [htake, hl])
    (by unfold HEADER_SIZE at hdt; omega), htake]
  show headerLastModified (deleteResult db k now).header = _
  rw [headerLastModified_deleteResult, Nat.mod_eq_of_lt hbound]
  rfl

/-! ## `read` after committed operations -/

theorem read_writeResult (db : DB) (k : Key) (v : Val) (now : Nat)
    (hk : validateKey k = true) (hhdr : db.header.length = HEADER_SIZE)
    (hdt : HEADER_SIZE ≤ db.dataTail) (hv : ValBounded v)
    (hbound : nextLastModified now db.lastModified < 2 ^ 64) :
    read (writeResult db k v now) k = .ok (writeResult db k v now, some v) := by
  have hs := synced_writeResult db k v now hhdr hdt hbound
  have hfile : (writeResult db k v now).file =
      writeAt (writeAt (writeAt db.file
        (db.dataTail + (encodeVal v).length - (encodeVal v).length) (encodeVal v))
        0 ((writeResult db k v now).header.take HEADER_SIZE))
        (db.dataTail + (encodeVal v).length)
        (encodeIndex (setEntry db.index k (db.dataTail, (encodeVal v).length))) := rfl
  have htakelen : ((writeResult db k v now).header.take HEADER_SIZE).length = HEADER_SIZE := by
    rw [List.length_take, writeResult_header_length db k v now hhdr]
    omega
  have hbytes : readAt (writeResult db k v now).file db.dataTail
      (encodeVal v).length = encodeVal v := by
    rw [hfile, readAt_writeAt_left _ _ _ _ _ (le_refl _),
      readAt_writeAt_right _ _ _ _ _ (by rw [htakelen]; omega),
      show db.dataTail + (encodeVal v).length - (encodeVal v).length = db.dataTail by omega,
      readAt_writeAt_self]
  have hlk : lookupEntry (writeResult db k v now).index k =
      some (db.dataTail, (encodeVal v).length) := lookupEntry_setEntry_self _ _ _
  unfold read
  rw [if_neg (by simp [hk]), recover_of_synced _ hs, except_bind_ok,
    sync_of_synced _ hs false, except_bind_ok]
  simp only [hlk, hbytes, decodeVal_encodeVal v hv]
  rfl

theorem read_deleteResult (db : DB) (k : Key) (now : Nat)
    (hk : validateKey k = true) (hhdr : db.header.length = HEADER_SIZE)
    (hdt : HEADER_SIZE ≤ db.dataTail)
    (hbound : nextLastModified now db.lastModified < 2 ^ 64) :
    read (deleteResult db k now) k = .ok (deleteResult db k now, none) := by
  have hs := synced_deleteResult db k now hhdr hdt hbound
  unfold read
  rw [if_neg (by simp [hk]), recover_of_synced _ hs, except_bind_ok,
    sync_of_synced _ hs false, except_bind_ok]
  have hlk : lookupEntry (deleteResult db k now).index k = none :=
    lookupEntry_delEntry_self _ _
  simp only [hlk]
  rfl

theorem read_absent (db : DB) (k : Key) (hk : validateKey k = true)
    (hs : Synced db) (habs : lookupEntry db.index k = none) :
    read db k = .ok (db, none) := by
  unfold read
  rw [if_neg (by simp [hk]), recover_of_synced _ hs, except_bind_ok,
    sync_of_synced _ hs false, except_bind_ok]
  simp only [habs]
  rfl

/-! ## Shared concrete states for witnesses -/

/-- The handle on a fresh database file. -/
def db0 : DB := getOk initialDB

def keyA : Key := [97]

def keyB : Key := [98]

/-! ## Claim C4 -/

/-- C4: for a valid (non-empty) key `k` on a synced handle (with the
reachable-state side conditions: 36-byte cached header, `dataTail ≥ 36`,
timestamps and value below the 64-bit field bounds): `read k` returns `v`
immediately after a successful `write k v`; `read k` returns `null`
immediately after a successful `delete k`; and `read k` returns `null` when
`k` is absent from the index. -/
theorem C4_read_after_write_delete_absent (db : DB) (k : Key) (v : Val) (now : Nat) :
    validateKey k = true → Synced db → db.header.length = HEADER_SIZE →
    HEADER_SIZE ≤ db.dataTail → ValBounded v → now < 2 ^ 64 →
    db.lastModified + 1 < 2 ^ 64 →
    (∀ db', write db k v now = .ok db' → read db' k = .ok (db', some v)) ∧
    (∀ db', delete db k now = .ok db' → read db' k = .ok (db', none)) ∧
    (lookupEntry db.index k = none → read db k = .ok (db, none)) := by
  intro hk hs hhdr hdt hv hnow hlm
  have hbound : nextLastModified now db.lastModified < 2 ^ 64 := by
    unfold nextLastModified
    split <;> omega
  refine ⟨?_, ?_, ?_⟩
  · intro db' h
    rw [write_ok db k v now hk hs (le_of_eq hhdr.symm)] at h
    injection h with h
    subst h
    exact read_writeResult db k v now hk hhdr hdt hv hbound
  · intro db' h
    rw [delete_ok db k now hk hs (le_of_eq hhdr.symm)] at h
    injection h with h
    subst h
    exact read_deleteResult db k now hk hhdr hdt hbound
  · intro habs
    exact read_absent db k hk hs habs

/-- Witness for C4 at a concrete state: the fresh database, key `"a"`,
value `7`. -/
theorem C4_witness :
    read (getOk (write db0 keyA (Val.vint 7) 5)) keyA =
      .ok (getOk (write db0 keyA (Val.vint 7) 5), some (Val.vint 7)) :=
  (C4_read_after_write_delete_absent db0 keyA (Val.vint 7) 5 (by decide)
    (by decide) (by decide) (by decide) (by decide) (by decide) (by decide)).1
    (getOk (write db0 keyA (Val.vint 7) 5)) rfl

/-! ## Claim C6 -/

/-- C6: performing the apply step of a journal transaction twice with the
same journal record yields exactly the same db-file bytes as performing it
once: every apply step is a positional overwrite determined entirely by the
journal's own fields. -/
theorem C6_journal_apply_idempotent (t : Txn) (f f' : List Nat)
    (h : performTransaction t f = .ok f') :
    performTransaction t f' = .ok f' :=
  performTransaction_idempotent t f f' h

def getOkBytes (e : Except String (List Nat)) : List Nat :=
  match e with
  | .ok d => d
  | .error _ => []

def c6txn : Txn :=
  { key := [107], operation := .delete, data := none, index := [160],
    header := List.replicate 36 1, dataOffset := 36 }

def c6file : List Nat := List.replicate 40 2

/-- Witness for C6: a concrete delete-journal applied to a concrete file. -/
theorem C6_witness :
    performTransaction c6txn (getOkBytes (performTransaction c6txn c6file)) =
      .ok (getOkBytes (performTransaction c6txn c6file)) :=
  C6_journal_apply_idempotent c6txn c6file
    (getOkBytes (performTransaction c6txn c6file)) rfl

/-! ## Claim C7 -/

/-- C7: `nextLastModified` returns the wall-clock `now` when it is strictly
greater than the cached `lastModified` and `cached + 1` otherwise, so every
successful mutating operation (`write`, `delete`, `vacuum`) on a synced
handle makes `lastModified` strictly greater than the cached value — hence
`n` successive mutations advance it by at least `n` even when the clock does
not advance. -/
theorem C7_next_timestamp_monotone :
    (∀ now last, (last < now → nextLastModified now last = now) ∧
      (¬ last < now → nextLastModified now last = last + 1) ∧
      last < nextLastModified now last) ∧
    (∀ db k v now db', validateKey k = true → Synced db →
      HEADER_SIZE ≤ db.header.length → write db k v now = .ok db' →
      db.lastModified < db'.lastModified) ∧
    (∀ db k now db', validateKey k = true → Synced db →
      HEADER_SIZE ≤ db.header.length → delete db k now = .ok db' →
      db.lastModified < db'.lastModified) ∧
    (∀ db now db', Synced db → vacuum db now = .ok db' →
      db.lastModified < db'.lastModified) := by
  refine ⟨?_, ?_, ?_, ?_⟩
  · intro now last
    refine ⟨fun h => ?_, fun h => ?_, nextLastModified_gt now last⟩
    · simp [nextLastModified, h]
    · simp [nextLastModified, h]
  · intro db k v now db' hk hs hhdr h
    rw [write_ok db k v now hk hs hhdr] at h
    injection h with h
    subst h
    exact nextLastModified_gt now db.lastModified
  · intro db k now db' hk hs hhdr h
    rw [delete_ok db k now hk hs hhdr] at h
    injection h with h
    subst h
    exact nextLastModified_gt now db.lastModified
  · intro db now db' hs h
    rw [vacuum_ok db now hs] at h
    injection h with h
    subst h
    exact nextLastModified_gt now db.lastModified

/-- Witness for C7: a concrete write on the fresh database advances
`lastModified`. -/
theorem C7_witness :
    db0.lastModified < (getOk (write db0 keyA (Val.vint 7) 5)).lastModified :=
  C7_next_timestamp_monotone.2.1 db0 keyA (Val.vint 7) 5
    (getOk (write db0 keyA (Val.vint 7) 5)) (by decide) (by decide) (by decide) rfl

/-! ## Claim C8 -/

theorem delEntry_of_absent (idx : Index) (k : Key)
    (h : lookupEntry idx k = none) : delEntry idx k = idx := by
  rw [lookupEntry_eq_none_iff, List.any_eq_false] at h
  exact List.filter_eq_self.mpr (fun e he => by simpa using h e he)

/-- C8: `delete k` on a valid key proceeds even when `k` is absent from the
index — it still advances `lastModified`, commits a new header and index
(journal written and removed), leaves the index, `dataTail` and the header's
`data_size` unchanged, and leaves the data-region bytes on disk. -/
theorem C8_delete_absent_proceeds (db : DB) (k : Key) (now : Nat) :
    validateKey k = true → Synced db → db.header.length = HEADER_SIZE →
    HEADER_SIZE ≤ db.dataTail → lookupEntry db.index k = none →
    db.dataTail - HEADER_SIZE < 2 ^ 48 →
    ∃ db', delete db k now = .ok db' ∧
      db.lastModified < db'.lastModified ∧
      db'.journal = none ∧
      db'.index = db.index ∧
      db'.dataTail = db.dataTail ∧
      headerDataSize db'.header = db.dataTail - HEADER_SIZE ∧
      readAt db'.file HEADER_SIZE (db.dataTail - HEADER_SIZE) =
        readAt db.file HEADER_SIZE (db.dataTail - HEADER_SIZE) := by
  intro hk hs hhdr hdt habs hds
  refine ⟨deleteResult db k now, delete_ok db k now hk hs (le_of_eq hhdr.symm),
    nextLastModified_gt now db.lastModified, rfl, delEntry_of_absent db.index k habs, rfl,
    ?_, ?_⟩
  · show headerDataSize (writeUIntLE _ (db.dataTail - HEADER_SIZE)
      LOCATION_DATA_SIZE HEADER_DATA_SIZE_BYTES) = _
    unfold headerDataSize
    rw [readUIntLE_writeUIntLE_self]
    have h48 : (256 : Nat) ^ HEADER_DATA_SIZE_BYTES = 2 ^ 48 := by decide
    rw [h48, Nat.mod_eq_of_lt hds]
  · have htakelen : ((deleteResult db k now).header.take HEADER_SIZE).length =
        HEADER_SIZE := by
      rw [List.length_take, deleteResult_header_length db k now hhdr]
      omega
    show readAt (writeAt (writeAt db.file 0 _) db.dataTail _) HEADER_SIZE
      (db.dataTail - HEADER_SIZE) = _
    rw [readAt_writeAt_left _ _ _ _ _ (by omega),
      readAt_writeAt_right _ _ _ _ _
        (by simp only [Nat.zero_add]; exact le_of_eq htakelen)]

/-- Witness for C8: deleting the absent key `"b"` on the fresh database. -/
theorem C8_witness :
    ∃ db', delete db0 keyB 3 = .ok db' ∧
      db0.lastModified < db'.lastModified ∧
      db'.journal = none ∧
      db'.index = db0.index ∧
      db'.dataTail = db0.dataTail ∧
      headerDataSize db'.header = db0.dataTail - HEADER_SIZE ∧
      readAt db'.file HEADER_SIZE (db0.dataTail - HEADER_SIZE) =
        readAt db0.file HEADER_SIZE (db0.dataTail - HEADER_SIZE) :=
  C8_delete_absent_proceeds db0 keyB 3 (by decide) (by decide) (by decide)
    (by decide) (by decide) (by decide)

/-! ## Claim C10 -/

/-- C10: when `write k v` overwrites a key already present in the index, `k`
keeps its original position in the insertion order exposed by `keys` — the
key sequence of the index is unchanged. -/
theorem C10_overwrite_keeps_insertion_order (db : DB) (k : Key) (v : Val) (now : Nat) :
    validateKey k = true → Synced db → db.header.length = HEADER_SIZE →
    HEADER_SIZE ≤ db.dataTail → now < 2 ^ 64 → db.lastModified + 1 < 2 ^ 64 →
    db.index.any (fun e => e.1 == k) = true →
    ∀ db', write db k v now = .ok db' →
      db'.index.map (fun e => e.1) = db.index.map (fun e => e.1) ∧
      keys db' = .ok (db', db.index.map (fun e => e.1)) := by
  intro hk hs hhdr hdt hnow hlm hpresent db' h
  rw [write_ok db k v now hk hs (le_of_eq hhdr.symm)] at h
  injection h with h
  subst h
  have hbound : nextLastModified now db.lastModified < 2 ^ 64 := by
    unfold nextLastModified
    split <;> omega
  have hmap : (writeResult db k v now).index.map (fun e => e.1) =
      db.index.map (fun e => e.1) :=
    map_fst_setEntry_of_present db.index k _ hpresent
  have hsync2 := synced_writeResult db k v now hhdr hdt hbound
  refine ⟨hmap, ?_⟩
  unfold keys
  rw [recover_of_synced _ hsync2, except_bind_ok, sync_of_synced _ hsync2 false,
    except_bind_ok, hmap]
  rfl

def db1 : DB := getOk (write db0 keyA (Val.vint 1) 1)

/-- Witness for C10: overwriting `"a"` in a database whose index is
`["a"]`. -/
theorem C10_witness :
    (getOk (write db1 keyA (Val.vint 2) 2)).index.map (fun e => e.1) =
      db1.index.map (fun e => e.1) ∧
    keys (getOk (write db1 keyA (Val.vint 2) 2)) =
      .ok (getOk (write db1 keyA (Val.vint 2) 2), db1.index.map (fun e => e.1)) :=
  C10_overwrite_keeps_insertion_order db1 keyA (Val.vint 2) 2 (by decide)
    (by decide) (by decide) (by decide) (by decide) (by decide) (by decide)
    (getOk (write db1 keyA (Val.vint 2) 2)) rfl

/-! ## Claim C2 (corrected)

`recoverWithFileDescriptor` calls `decode(journalBuffer)` with no try/catch
(lines 144-150); neither `recover()` nor `sync(fd, true)` catches either, so
a journal that fails to decode makes the whole operation throw — it is not
treated as if no journal were present.  The db file is indeed untouched,
because the decode throws before any `fs.writeSync` call. -/

/-- Counterexample to C2 as stated: with an empty (undecodable) journal file
present, `read` on the fresh database raises the decode error instead of
proceeding. -/
theorem C2_counterexample :
    read { db0 with journal := some [] } keyA =
      .error "cbor-x: unexpected end of CBOR data" := rfl

theorem recover_error (db : DB) (j : List Nat) (e : String)
    (hj : db.journal = some j) (hrec : recoverWithFile db.file j = .error e) :
    recover db = .error e := by
  unfold recover
  rw [hj]
  show (recoverWithFile db.file j) >>= (fun f =>
    buildHeaderAndIndex { db with file := f, journal := none }) = Except.error e
  rw [hrec, except_bind_error]

/-- C2 amended: when the journal bytes fail to decode, recovery propagates
the decode error (the operation does not proceed); since the decode throws
before any write, the db file bytes are not modified — in the model,
`recoverWithFile` returns no new file bytes and any operation running
recovery returns the same error. -/
theorem C2_amended (db : DB) (j : List Nat) (k : Key)
    (hdec : decodeTxn j = none) :
    recoverWithFile db.file j = .error "cbor-x: unexpected end of CBOR data" ∧
    (validateKey k = true → db.journal = some j →
      read db k = .error "cbor-x: unexpected end of CBOR data") := by
  have hrec : recoverWithFile db.file j = .error "cbor-x: unexpected end of CBOR data" := by
    unfold recoverWithFile
    rw [hdec]
  refine ⟨hrec, fun hk hj => ?_⟩
  unfold read
  rw [if_neg (by simp [hk]), recover_error db j _ hj hrec, except_bind_error]

/-- Witness for the amended C2 at a concrete undecodable journal. -/
theorem C2_amended_witness :
    recoverWithFile { db0 with journal := some [255] }.file [255] =
      .error "cbor-x: unexpected end of CBOR data" ∧
    (validateKey keyA = true → ({ db0 with journal := some [255] } : DB).journal = some [255] →
      read { db0 with journal := some [255] } keyA =
        .error "cbor-x: unexpected end of CBOR data") :=
  C2_amended { db0 with journal := some [255] } [255] keyA (by decide)

/-! ## Claim C3 (corrected)

`buildHeaderAndIndex` (lines 88-111) checks that the declared index region
fits in the file and that the index decodes to a `Map` — but it never
compares the magic bytes or the version byte against `HEADER_MAGIC` /
`HEADER_VERSION`.  A file with wrong magic and version is accepted when its
sizes and index are consistent. -/

/-- A 37-byte file whose magic is nine zero bytes and whose version byte is
`0`, with `index_size = 1`, `data_size = 0` and a valid empty-map index. -/
def c3file : List Nat :=
  List.replicate 10 0 ++ [1, 0, 0, 0] ++ List.replicate 22 0 ++ [160]

def c3db : DB :=
  { file := c3file, journal := none, header := [], index := [],
    dataTail := 0, lastModified := 0 }

/-- Counterexample to C3 as stated: opening `c3file` succeeds although both
its magic bytes and its version byte are wrong. -/
theorem C3_counterexample :
    buildHeaderAndIndex c3db = .ok (getOk (buildHeaderAndIndex c3db)) ∧
    readAt c3file 0 9 ≠ HEADER_MAGIC ∧
    readAt c3file LOCATION_VERSION 1 ≠ HEADER_VERSION :=
  ⟨rfl, by decide, by decide⟩

/-- C3 amended: on open the engine fails when the file is shorter than
`36 + data_size + index_size` and when the index region does not decode to a
map, but it does not validate the magic bytes or the version byte — any
header whose sizes are consistent with the file is accepted. -/
theorem C3_amended (db : DB) :
    (HEADER_SIZE + headerDataSize (readAt db.file 0 HEADER_SIZE) +
        headerIndexSize (readAt db.file 0 HEADER_SIZE) > db.file.length →
      buildHeaderAndIndex db = .error "[JSONBLite] File is truncated or corrupted") ∧
    (¬ HEADER_SIZE + headerDataSize (readAt db.file 0 HEADER_SIZE) +
        headerIndexSize (readAt db.file 0 HEADER_SIZE) > db.file.length →
      decodeIndex (readAt db.file
        (HEADER_SIZE + headerDataSize (readAt db.file 0 HEADER_SIZE))
        (headerIndexSize (readAt db.file 0 HEADER_SIZE))) = none →
      buildHeaderAndIndex db = .error "[JSONBLite] Invalid index format") ∧
    (∀ idx, ¬ HEADER_SIZE + headerDataSize (readAt db.file 0 HEADER_SIZE) +
        headerIndexSize (readAt db.file 0 HEADER_SIZE) > db.file.length →
      decodeIndex (readAt db.file
        (HEADER_SIZE + headerDataSize (readAt db.file 0 HEADER_SIZE))
        (headerIndexSize (readAt db.file 0 HEADER_SIZE))) = some idx →
      buildHeaderAndIndex db = .ok { db with
        header := readAt db.file 0 HEADER_SIZE
        index := idx
        dataTail := HEADER_SIZE + headerDataSize (readAt db.file 0 HEADER_SIZE)
        lastModified := headerLastModified (readAt db.file 0 HEADER_SIZE) }) := by
  unfold headerDataSize headerIndexSize headerLastModified
  refine ⟨fun h => ?_, fun h hdec => ?_, fun idx h hdec => ?_⟩
  · simp only [buildHeaderAndIndex]
    rw [if_pos (by omega)]
  · simp only [buildHeaderAndIndex]
    rw [if_neg (by omega)]
    simp only [Nat.add_assoc] at hdec ⊢
    rw [hdec]
  · simp only [buildHeaderAndIndex]
    rw [if_neg (by omega)]
    simp only [Nat.add_assoc] at hdec ⊢
    rw [hdec]

/-- Witness for the amended C3: the fresh database file decodes to the empty
index, and a truncated file is rejected. -/
theorem C3_amended_witness :
    buildHeaderAndIndex db0 = .ok { db0 with
      header := readAt db0.file 0 HEADER_SIZE
      index := []
      dataTail := HEADER_SIZE + headerDataSize (readAt db0.file 0 HEADER_SIZE)
      lastModified := headerLastModified (readAt db0.file 0 HEADER_SIZE) } :=
  (C3_amended db0).2.2 [] (by decide) (by decide)

/-! ## Claim C1 (corrected)

`performTransaction` only overwrites bytes; nothing in `write` or `delete`
ever calls `ftruncate` on the db file.  When a `delete` shrinks the encoded
index, bytes of the previous, larger index remain beyond the new index
region, so the file is strictly larger than `36 + data_size + index_size`.
Only `vacuum` truncates (line 403) and restores exact equality. -/

/-- The committed state after `write "a" 1; write "b" 2; delete "b"` on a
fresh database. -/
def c1db : DB :=
  getOk (delete (getOk (write (getOk (write db0 keyA (Val.vint 1) 0))
    keyB (Val.vint 2) 0)) keyB 0)

/-- Counterexample to C1 as stated: after the committed `delete` above the
file is 51 bytes long while `36 + data_size + index_size = 45` — six bytes of
the previous index remain as tail garbage. -/
theorem C1_counterexample :
    delete (getOk (write (getOk (write db0 keyA (Val.vint 1) 0))
      keyB (Val.vint 2) 0)) keyB 0 = .ok c1db ∧
    c1db.file.length = 51 ∧
    HEADER_SIZE + headerDataSize c1db.header + headerIndexSize c1db.header = 45 :=
  ⟨rfl, by decide, by decide⟩

/-- C1 amended: after every committed `write` or `delete` the file size is at
least `36 + data_size + index_size` (the inequality can be strict, because
the file is never truncated and a shrinking index leaves tail bytes behind);
after `vacuum` the equality holds exactly. -/
theorem C1_amended :
    (∀ db k v now db', validateKey k = true → Synced db →
      db.header.length = HEADER_SIZE → HEADER_SIZE ≤ db.dataTail →
      db.dataTail + (encodeVal v).length - HEADER_SIZE < 2 ^ 48 →
      (encodeIndex (setEntry db.index k (db.dataTail, (encodeVal v).length))).length < 2 ^ 32 →
      write db k v now = .ok db' →
      HEADER_SIZE + headerDataSize db'.header + headerIndexSize db'.header ≤
        db'.file.length) ∧
    (∀ db k now db', validateKey k = true → Synced db →
      db.header.length = HEADER_SIZE → HEADER_SIZE ≤ db.dataTail →
      db.dataTail - HEADER_SIZE < 2 ^ 48 →
      (encodeIndex (delEntry db.index k)).length < 2 ^ 32 →
      delete db k now = .ok db' →
      HEADER_SIZE + headerDataSize db'.header + headerIndexSize db'.header ≤
        db'.file.length) ∧
    (∀ db now db', Synced db →
      db'.dataTail - HEADER_SIZE < 2 ^ 48 →
      (encodeIndex db'.index).length < 2 ^ 32 →
      vacuum db now = .ok db' →
      db'.file.length =
        HEADER_SIZE + headerDataSize db'.header + headerIndexSize db'.header) := by
  refine ⟨?_, ?_, ?_⟩
  · intro db k v now db' hk hs hhdr hdt hds his h
    rw [write_ok db k v now hk hs (le_of_eq hhdr.symm)] at h
    injection h with h
    subst h
    have h1 : headerDataSize (writeResult db k v now).header =
        db.dataTail + (encodeVal v).length - HEADER_SIZE := by
      show headerDataSize (writeUIntLE _ _ LOCATION_DATA_SIZE HEADER_DATA_SIZE_BYTES) = _
      unfold headerDataSize
      rw [readUIntLE_writeUIntLE_self,
        show (256 : Nat) ^ HEADER_DATA_SIZE_BYTES = 2 ^ 48 from by decide,
        Nat.mod_eq_of_lt hds]
    have h2 : headerIndexSize (writeResult db k v now).header =
        (encodeIndex (setEntry db.index k (db.dataTail, (encodeVal v).length))).length := by
      show headerIndexSize (writeUIntLE (writeUIntLE _ _ LOCATION_INDEX_SIZE
        HEADER_INDEX_SIZE_BYTES) _ LOCATION_DATA_SIZE HEADER_DATA_SIZE_BYTES) = _
      unfold headerIndexSize
      rw [readUIntLE_writeUIntLE_left _ _ _ _ _ _ (by decide),
        readUIntLE_writeUIntLE_self,
        show (256 : Nat) ^ HEADER_INDEX_SIZE_BYTES = 2 ^ 32 from by decide,
        Nat.mod_eq_of_lt his]
    rw [h1, h2]
    show _ ≤ (writeAt (writeAt (writeAt db.file _ _) 0 _) (db.dataTail + (encodeVal v).length) _).length
    simp only [writeAt_length]
    unfold HEADER_SIZE at hdt ⊢
    omega
  · intro db k now db' hk hs hhdr hdt hds his h
    rw [delete_ok db k now hk hs (le_of_eq hhdr.symm)] at h
    injection h with h
    subst h
    have h1 : headerDataSize (deleteResult db k now).header =
        db.dataTail - HEADER_SIZE := by
      show headerDataSize (writeUIntLE _ _ LOCATION_DATA_SIZE HEADER_DATA_SIZE_BYTES) = _
      unfold headerDataSize
      rw [readUIntLE_writeUIntLE_self,
        show (256 : Nat) ^ HEADER_DATA_SIZE_BYTES = 2 ^ 48 from by decide,
        Nat.mod_eq_of_lt hds]
    have h2 : headerIndexSize (deleteResult db k now).header =
        (encodeIndex (delEntry db.index k)).length := by
      show headerIndexSize (writeUIntLE (writeUIntLE (writeUIntLE _ _
        LOCATION_INDEX_SIZE HEADER_INDEX_SIZE_BYTES) _ LOCATION_LAST_MODIFIED 8)
        _ LOCATION_DATA_SIZE HEADER_DATA_SIZE_BYTES) = _
      unfold headerIndexSize
      rw [readUIntLE_writeUIntLE_left _ _ _ _ _ _ (by decide),
        readUIntLE_writeUIntLE_left _ _ _ _ _ _ (by decide),
        readUIntLE_writeUIntLE_self,
        show (256 : Nat) ^ HEADER_INDEX_SIZE_BYTES = 2 ^ 32 from by decide,
        Nat.mod_eq_of_lt his]
    rw [h1, h2]
    show _ ≤ (writeAt (writeAt db.file 0 _) db.dataTail _).length
    simp only [writeAt_length]
    unfold HEADER_SIZE at hdt ⊢
    omega
  · intro db now db' hs hds his h
    rw [vacuum_ok db now hs] at h
    injection h with h
    subst h
    have h1 : headerDataSize (vacuumResult db now).header =
        (vacuumResult db now).dataTail - HEADER_SIZE := by
      show headerDataSize (writeUIntLE (writeUIntLE (writeUIntLE _ _
        LOCATION_DATA_SIZE HEADER_DATA_SIZE_BYTES) _ LOCATION_LAST_MODIFIED 8)
        _ LOCATION_LAST_VACUUM_TIMESTAMP 8) = _
      unfold headerDataSize
      rw [readUIntLE_writeUIntLE_left _ _ _ _ _ _ (by decide),
        readUIntLE_writeUIntLE_left _ _ _ _ _ _ (by decide),
        readUIntLE_writeUIntLE_self,
        show (256 : Nat) ^ HEADER_DATA_SIZE_BYTES = 2 ^ 48 from by decide]
      exact Nat.mod_eq_of_lt hds
    have h2 : headerIndexSize (vacuumResult db now).header =
        (encodeIndex (vacuumResult db now).index).length := by
      show headerIndexSize (writeUIntLE (writeUIntLE (writeUIntLE (writeUIntLE _ _
        LOCATION_INDEX_SIZE HEADER_INDEX_SIZE_BYTES) _ LOCATION_DATA_SIZE
        HEADER_DATA_SIZE_BYTES) _ LOCATION_LAST_MODIFIED 8) _
        LOCATION_LAST_VACUUM_TIMESTAMP 8) = _
      unfold headerIndexSize
      rw [readUIntLE_writeUIntLE_left _ _ _ _ _ _ (by decide),
        readUIntLE_writeUIntLE_left _ _ _ _ _ _ (by decide),
        readUIntLE_writeUIntLE_left _ _ _ _ _ _ (by decide),
        readUIntLE_writeUIntLE_self,
        show (256 : Nat) ^ HEADER_INDEX_SIZE_BYTES = 2 ^ 32 from by decide]
      exact Nat.mod_eq_of_lt his
    rw [h1, h2]
    have hofs : HEADER_SIZE ≤ (vacuumResult db now).dataTail := by
      show HEADER_SIZE ≤ (db.index.foldl (vacuumStep db.file)
        (writeAt [] 0 createDefaultHeader, [], HEADER_SIZE)).2.2
      generalize writeAt [] 0 createDefaultHeader = t0
      generalize ([] : Index) = i0
      have : ∀ (l : Index) (t : List Nat) (i : Index) (o : Nat),
          o ≤ (l.foldl (vacuumStep db.file) (t, i, o)).2.2 := by
        intro l
        induction l with
        | nil => intro t i o; exact le_refl o
        | cons e es ih =>
          intro t i o
          simp only [List.foldl_cons]
          exact le_trans (show o ≤ o + e.2.2 by omega)
            (ih (vacuumStep db.file (t, i, o) e).1
              (vacuumStep db.file (t, i, o) e).2.1
              (vacuumStep db.file (t, i, o) e).2.2)
      exact this db.index t0 i0 HEADER_SIZE
    show ((padTo _ ((vacuumResult db now).dataTail +
      (encodeIndex (vacuumResult db now).index).length)).take
      ((vacuumResult db now).dataTail +
        (encodeIndex (vacuumResult db now).index).length)).length = _
    simp only [List.length_take, padTo_length]
    omega

/-- Witness for the amended C1: the concrete delete of the counterexample
satisfies the inequality (51 ≥ 45). -/
theorem C1_amended_witness :
    HEADER_SIZE + headerDataSize c1db.header + headerIndexSize c1db.header ≤
      c1db.file.length :=
  C1_amended.2.1 (getOk (write (getOk (write db0 keyA (Val.vint 1) 0))
      keyB (Val.vint 2) 0)) keyB 0 c1db (by decide) (by decide) (by decide)
    (by decide) (by decide) (by decide) rfl

/-! ## Claim C9: a mutation that throws before the journal write is rolled
back by the next `sync`

In `write` (lines 256-265) and `delete` (lines 292-300) the in-memory
`index`, `header`, `dataTail` and `lastModified` are all mutated before
`beginTransaction` writes the journal file.  If `beginTransaction` (or
anything before it) throws, the handle is left with mutated memory while the
file and journal are untouched.  `writeMemOnly` / `deleteMemOnly` are those
intermediate states. -/

/-- The handle state when `write` has executed its in-memory mutations
(lines 256-265) and then thrown before writing the journal. -/
def writeMemOnly (db : DB) (k : Key) (v : Val) (now : Nat) : DB :=
  let serialized := encodeVal v
  let index1 := setEntry db.index k (db.dataTail, serialized.length)
  let indexBytes := encodeIndex index1
  let lastModified1 := nextLastModified now db.lastModified
  let dataTail1 := db.dataTail + serialized.length
  { db with
    header := writeUIntLE (writeUIntLE (writeUIntLE db.header lastModified1
      LOCATION_LAST_MODIFIED 8) indexBytes.length LOCATION_INDEX_SIZE
      HEADER_INDEX_SIZE_BYTES) (dataTail1 - HEADER_SIZE) LOCATION_DATA_SIZE
      HEADER_DATA_SIZE_BYTES
    index := index1
    dataTail := dataTail1
    lastModified := lastModified1 }

/-- The handle state when `delete` has executed its in-memory mutations
(lines 292-300) and then thrown before writing the journal. -/
def deleteMemOnly (db : DB) (k : Key) (now : Nat) : DB :=
  let index1 := delEntry db.index k
  let indexBytes := encodeIndex index1
  let lastModified1 := nextLastModified now db.lastModified
  { db with
    header := writeUIntLE (writeUIntLE (writeUIntLE db.header indexBytes.length
      LOCATION_INDEX_SIZE HEADER_INDEX_SIZE_BYTES) lastModified1
      LOCATION_LAST_MODIFIED 8) (db.dataTail - HEADER_SIZE) LOCATION_DATA_SIZE
      HEADER_DATA_SIZE_BYTES
    index := index1
    lastModified := lastModified1 }

theorem sync_rebuild (db : DB)
    (hne : readUIntLE db.file LOCATION_LAST_MODIFIED 8 ≠ db.lastModified) :
    sync db false = buildHeaderAndIndex db := by
  unfold sync
  cases hj : db.journal with
  | none =>
    show Except.ok db >>= (fun db1 =>
      if readUIntLE db1.file LOCATION_LAST_MODIFIED 8 ≠ db1.lastModified then
        buildHeaderAndIndex db1 else pure db1) = _
    rw [except_bind_ok, if_pos hne]
  | some j =>
    show Except.ok db >>= (fun db1 =>
      if readUIntLE db1.file LOCATION_LAST_MODIFIED 8 ≠ db1.lastModified then
        buildHeaderAndIndex db1 else pure db1) = _
    rw [except_bind_ok, if_pos hne]

/-- `buildHeaderAndIndex` reads only the file; the cached header, index,
`dataTail` and `lastModified` it overwrites do not influence the result. -/
theorem buildHeaderAndIndex_update (db : DB) (hdr : List Nat) (idx : Index)
    (t l : Nat) (d : DB) (h : buildHeaderAndIndex db = .ok d) :
    buildHeaderAndIndex { db with
      header := hdr
      index := idx
      dataTail := t
      lastModified := l } = .ok d := by
  simp only [buildHeaderAndIndex] at h ⊢
  by_cases hguard : HEADER_SIZE +
      readUIntLE (readAt db.file 0 HEADER_SIZE) LOCATION_DATA_SIZE HEADER_DATA_SIZE_BYTES +
      readUIntLE (readAt db.file 0 HEADER_SIZE) LOCATION_INDEX_SIZE HEADER_INDEX_SIZE_BYTES >
      db.file.length
  · rw [if_pos hguard] at h
    exact absurd h (by simp)
  · rw [if_neg hguard] at h ⊢
    cases hdec : decodeIndex (readAt db.file
        (HEADER_SIZE + readUIntLE (readAt db.file 0 HEADER_SIZE)
          LOCATION_DATA_SIZE HEADER_DATA_SIZE_BYTES)
        (readUIntLE (readAt db.file 0 HEADER_SIZE) LOCATION_INDEX_SIZE
          HEADER_INDEX_SIZE_BYTES)) with
    | none =>
      rw [hdec] at h
      exact absurd h (by simp)
    | some i =>
      simp only [hdec] at h ⊢
      exact h

/-- C9: if a `write` or `delete` throws after mutating the in-memory header,
index, `dataTail` and `lastModified` but before the journal file was written,
then the next `sync` on the handle detects that the on-disk `last_modified`
differs from the (strictly larger) cached value and rebuilds the in-memory
state from disk, restoring exactly the pre-mutation handle — so the failed
mutation is not observable through `read` or `keys`. -/
theorem C9_failed_mutation_rolled_back (db : DB) (k k' : Key) (v : Val) (now : Nat) :
    Synced db → buildHeaderAndIndex db = .ok db →
    sync (writeMemOnly db k v now) false = .ok db ∧
    sync (deleteMemOnly db k now) false = .ok db ∧
    (validateKey k' = true → read (writeMemOnly db k v now) k' = read db k') ∧
    keys (writeMemOnly db k v now) = keys db := by
  intro hs hbuild
  have hne1 : readUIntLE (writeMemOnly db k v now).file LOCATION_LAST_MODIFIED 8 ≠
      (writeMemOnly db k v now).lastModified := by
    show readUIntLE db.file LOCATION_LAST_MODIFIED 8 ≠ nextLastModified now db.lastModified
    rw [hs.2]
    exact Nat.ne_of_lt (nextLastModified_gt now db.lastModified)
  have hne2 : readUIntLE (deleteMemOnly db k now).file LOCATION_LAST_MODIFIED 8 ≠
      (deleteMemOnly db k now).lastModified := by
    show readUIntLE db.file LOCATION_LAST_MODIFIED 8 ≠ nextLastModified now db.lastModified
    rw [hs.2]
    exact Nat.ne_of_lt (nextLastModified_gt now db.lastModified)
  have hb1 : buildHeaderAndIndex (writeMemOnly db k v now) = .ok db :=
    buildHeaderAndIndex_update db _ _ _ _ db hbuild
  have hb2 : buildHeaderAndIndex (deleteMemOnly db k now) = .ok db :=
    buildHeaderAndIndex_update db _ _ _ _ db hbuild
  have hsync1 : sync (writeMemOnly db k v now) false = .ok db := by
    rw [sync_rebuild _ hne1, hb1]
  have hsync2 : sync (deleteMemOnly db k now) false = .ok db := by
    rw [sync_rebuild _ hne2, hb2]
  refine ⟨hsync1, hsync2, fun hk' => ?_, ?_⟩
  · unfold read
    rw [if_neg (by simp [hk']),
      recover_of_no_journal (writeMemOnly db k v now) hs.1, except_bind_ok,
      hsync1, except_bind_ok, if_neg (by simp [hk']),
      recover_of_no_journal db hs.1, except_bind_ok,
      sync_of_synced db hs false, except_bind_ok]
  · unfold keys
    rw [recover_of_no_journal (writeMemOnly db k v now) hs.1, except_bind_ok,
      hsync1, except_bind_ok, recover_of_no_journal db hs.1, except_bind_ok,
      sync_of_synced db hs false, except_bind_ok]

/-- Witness for C9 on the fresh database. -/
theorem C9_witness :
    sync (writeMemOnly db0 keyA (Val.vint 7) 5) false = .ok db0 ∧
    sync (deleteMemOnly db0 keyA 5) false = .ok db0 ∧
    (validateKey keyB = true →
      read (writeMemOnly db0 keyA (Val.vint 7) 5) keyB = read db0 keyB) ∧
    keys (writeMemOnly db0 keyA (Val.vint 7) 5) = keys db0 :=
  C9_failed_mutation_rolled_back db0 keyA keyB (Val.vint 7) 5 (by decide) rfl

/-! ## Vacuum copy-loop lemmas (towards claim C5) -/

theorem lookupEntry_append_of_none (l1 l2 : Index) (k : Key)
    (h : lookupEntry l1 k = none) :
    lookupEntry (l1 ++ l2) k = lookupEntry l2 k := by
  induction l1 with
  | nil => rfl
  | cons e es ih =>
    rw [lookupEntry_cons] at h
    by_cases he : e.1 == k
    · rw [if_pos he] at h
      exact absurd h (by simp)
    · rw [if_neg (by simpa using he)] at h
      rw [List.cons_append, lookupEntry_cons, if_neg (by simpa using he)]
      exact ih h

theorem lookupEntry_append_of_some (l1 l2 : Index) (k : Key) (v : Nat × Nat)
    (h : lookupEntry l1 k = some v) :
    lookupEntry (l1 ++ l2) k = some v := by
  induction l1 with
  | nil => exact absurd h (by simp [lookupEntry])
  | cons e es ih =>
    rw [lookupEntry_cons] at h
    rw [List.cons_append, lookupEntry_cons]
    by_cases he : e.1 == k
    · rwa [if_pos he] at h ⊢
    · rw [if_neg (by simpa using he)] at h ⊢
      exact ih h

theorem lookupEntry_singleton_self (k : Key) (v : Nat × Nat) :
    lookupEntry [(k, v)] k = some v := by
  rw [lookupEntry_cons, if_pos (by simp)]

/-- A successful lookup names an entry of the list with that key. -/
theorem lookupEntry_some_mem (idx : Index) (k : Key) (v : Nat × Nat)
    (h : lookupEntry idx k = some v) : (k, v) ∈ idx := by
  induction idx with
  | nil => exact absurd h (by simp [lookupEntry])
  | cons e es ih =>
    rw [lookupEntry_cons] at h
    by_cases he : e.1 == k
    · rw [if_pos he] at h
      have hk : e.1 = k := by simpa using he
      have hv : e.2 = v := by simpa using h
      have : e = (k, v) := by
        rw [← hk, ← hv]
      rw [← this]
      exact List.mem_cons_self e es
    · rw [if_neg (by simpa using he)] at h
      exact List.mem_cons_of_mem e (ih h)

theorem cborHead_length_pos (major n : Nat) : 1 ≤ (cborHead major n).length := by
  unfold cborHead
  split_ifs <;> simp

theorem encodeIndex_length_pos (idx : Index) : 1 ≤ (encodeIndex idx).length := by
  unfold encodeIndex
  rw [List.length_append]
  have := cborHead_length_pos 5 idx.length
  omega

/-- Truncation (`ftruncate` to `n`) preserves reads entirely below `n`. -/
theorem readAt_truncate (f : List Nat) (n p s : Nat) (h : p + s ≤ n) :
    readAt ((padTo f n).take n) p s = readAt f p s := by
  apply byteList_ext
  · simp
  · intro i hi
    simp only [readAt_length] at hi
    rw [readAt_getD _ _ _ _ hi, readAt_getD _ _ _ _ hi]
    have hlt : p + i < n := by omega
    rw [List.getD_eq_getElem?_getD, List.getElem?_take_of_lt hlt,
      ← List.getD_eq_getElem?_getD, padTo_getD]

/-- Specification of the vacuum copy loop (lines 385-391).  Starting from a
temp file `t`, an accumulated index `ni` whose entries all end at or below
the allocation offset `o`, and a work list `l` with distinct keys none of
which is in `ni`: the loop only moves the offset forward, keeps every
accumulated entry inside `[36, final offset)`, leaves lookups of keys outside
`l` unchanged, gives every entry of `l` a slot whose final temp-file bytes
equal that entry's source bytes in `file`, and never touches temp bytes below
`o`. -/
theorem vacuumLoop_spec (file : List Nat) (l : Index) :
    ∀ (t : List Nat) (ni : Index) (o : Nat),
    (∀ x ∈ ni, HEADER_SIZE ≤ x.2.1 ∧ x.2.1 + x.2.2 ≤ o) →
    HEADER_SIZE ≤ o →
    (l.map (fun x => x.1)).Nodup →
    (∀ x ∈ l, lookupEntry ni x.1 = none) →
    o ≤ (l.foldl (vacuumStep file) (t, ni, o)).2.2 ∧
    (∀ x ∈ (l.foldl (vacuumStep file) (t, ni, o)).2.1,
      HEADER_SIZE ≤ x.2.1 ∧
        x.2.1 + x.2.2 ≤ (l.foldl (vacuumStep file) (t, ni, o)).2.2) ∧
    (∀ k, (∀ x ∈ l, x.1 ≠ k) →
      lookupEntry (l.foldl (vacuumStep file) (t, ni, o)).2.1 k = lookupEntry ni k) ∧
    (∀ x ∈ l, ∃ no,
      lookupEntry (l.foldl (vacuumStep file) (t, ni, o)).2.1 x.1 = some (no, x.2.2) ∧
      HEADER_SIZE ≤ no ∧
      no + x.2.2 ≤ (l.foldl (vacuumStep file) (t, ni, o)).2.2 ∧
      readAt (l.foldl (vacuumStep file) (t, ni, o)).1 no x.2.2 =
        readAt file x.2.1 x.2.2) ∧
    (∀ p s, p + s ≤ o →
      readAt (l.foldl (vacuumStep file) (t, ni, o)).1 p s = readAt t p s) := by
  induction l with
  | nil =>
    intro t ni o hni ho _ _
    simp only [List.foldl_nil]
    exact ⟨le_refl o, hni, fun k _ => trivial,
      fun x hx => absurd hx (List.not_mem_nil x), fun p s _ => trivial⟩
  | cons e es ih =>
    intro t ni o hni ho hnodup hfresh
    have hlk : lookupEntry ni e.1 = none := hfresh e (List.mem_cons_self e es)
    have hset : setEntry ni e.1 (o, e.2.2) = ni ++ [(e.1, (o, e.2.2))] := by
      unfold setEntry
      rw [if_neg (by simp [(lookupEntry_eq_none_iff ni e.1).mp hlk])]
    have hstep : vacuumStep file (t, ni, o) e =
        (writeAt t o (readAt file e.2.1 e.2.2), ni ++ [(e.1, (o, e.2.2))],
          o + e.2.2) := by
      show (writeAt t o (readAt file e.2.1 e.2.2), setEntry ni e.1 (o, e.2.2),
        o + e.2.2) = _
      rw [hset]
    rw [List.map_cons] at hnodup
    have hnd := List.nodup_cons.mp hnodup
    have hheadfresh : ∀ x ∈ es, e.1 ≠ x.1 := by
      intro x hx heq
      exact hnd.1 (heq ▸ List.mem_map_of_mem (fun y => y.1) hx)
    obtain ⟨ihA, ihB, ihC, ihD, ihE⟩ :=
      ih (writeAt t o (readAt file e.2.1 e.2.2)) (ni ++ [(e.1, (o, e.2.2))])
        (o + e.2.2)
        (by
          intro x hx
          rcases List.mem_append.mp hx with hx | hx
          · exact ⟨(hni x hx).1, le_trans (hni x hx).2 (by omega)⟩
          · have : x = (e.1, (o, e.2.2)) := by simpa using hx
            subst this
            exact ⟨ho, le_refl _⟩)
        (by omega)
        hnd.2
        (by
          intro x hx
          rw [lookupEntry_append_of_none _ _ _ (hfresh x (List.mem_cons_of_mem e hx)),
            lookupEntry_cons, if_neg (by simp [hheadfresh x hx])]
          rfl)
    rw [List.foldl_cons, hstep]
    refine ⟨le_trans (by omega) ihA, ihB, ?_, ?_, ?_⟩
    · intro k hk
      rw [ihC k (fun x hx => hk x (List.mem_cons_of_mem e hx))]
      cases hcase : lookupEntry ni k with
      | none =>
        rw [lookupEntry_append_of_none _ _ _ hcase, lookupEntry_cons,
          if_neg (by simp [hk e (List.mem_cons_self e es)])]
        rfl
      | some v => exact lookupEntry_append_of_some _ _ _ _ hcase
    · intro x hx
      rcases List.mem_cons.mp hx with hx | hx
      · subst hx
        refine ⟨o, ?_, ho, le_trans (le_refl _) ihA, ?_⟩
        · rw [ihC x.1 (fun y hy heq => hheadfresh y hy heq.symm),
            lookupEntry_append_of_none _ _ _ hlk, lookupEntry_singleton_self]
        · rw [ihE o x.2.2 (le_refl _)]
          have hself := readAt_writeAt_self t o (readAt file x.2.1 x.2.2)
          rwa [readAt_length] at hself
      · exact ihD x hx
    · intro p s hps
      rw [ihE p s (by omega), readAt_writeAt_left _ _ _ _ _ hps]

@[simp] theorem except_map_ok {ε α β : Type} (f : α → β) (a : α) :
    Except.map f (Except.ok a : Except ε α) = Except.ok (f a) := rfl

@[simp] theorem except_map_error {ε α β : Type} (f : α → β) (e : ε) :
    Except.map f (Except.error e : Except ε α) = Except.error e := rfl

theorem vacuum_offset_mono (file : List Nat) (l : Index) :
    ∀ (t : List Nat) (i : Index) (o : Nat),
      o ≤ (l.foldl (vacuumStep file) (t, i, o)).2.2 := by
  induction l with
  | nil =>
    intro t i o
    exact le_refl o
  | cons e es ih =>
    intro t i o
    simp only [List.foldl_cons]
    exact le_trans (show o ≤ o + e.2.2 by omega)
      (ih (vacuumStep file (t, i, o) e).1 (vacuumStep file (t, i, o) e).2.1
        (vacuumStep file (t, i, o) e).2.2)

theorem vacuumResult_header_length (db : DB) (now : Nat) :
    (vacuumResult db now).header.length = HEADER_SIZE := by
  show (writeUIntLE (writeUIntLE (writeUIntLE (writeUIntLE createDefaultHeader
    _ _ _) _ _ _) _ _ _) _ _ _).length = _
  simp only [writeUIntLE_length]
  rw [show createDefaultHeader.length = 36 from by decide]
  decide

theorem headerLastVacuum_vacuumResult (db : DB) (now : Nat) :
    headerLastVacuum (vacuumResult db now).header =
      nextLastModified now db.lastModified % 2 ^ 64 := by
  show headerLastVacuum (writeUIntLE _ _ LOCATION_LAST_VACUUM_TIMESTAMP 8) = _
  unfold headerLastVacuum
  rw [readUIntLE_writeUIntLE_self]
  norm_num

/-- A field inside the header region of the finished temp file. -/
theorem readUIntLE_vacuumFile (t h4 : List Nat) (p : Nat) (idxB : List Nat)
    (off k : Nat) (hh : h4.length = HEADER_SIZE) (hoffk : off + k ≤ HEADER_SIZE)
    (hp : HEADER_SIZE ≤ p) (hi : 1 ≤ idxB.length) :
    readUIntLE ((padTo (writeAt (writeAt t 0 h4) p idxB)
      (p + idxB.length)).take (p + idxB.length)) off k = readUIntLE h4 off k := by
  unfold readUIntLE
  rw [readAt_truncate _ _ _ _ (by unfold HEADER_SIZE at hoffk hp; omega),
    readAt_writeAt_left _ _ _ _ _ (by omega),
    readAt_writeAt_zero_within _ _ _ _ (by omega)]

/-- A data slice below the index region of the finished temp file. -/
theorem readAt_vacuumFile (t h4 : List Nat) (p : Nat) (idxB : List Nat)
    (q s : Nat) (hh : h4.length = HEADER_SIZE) (hq : HEADER_SIZE ≤ q)
    (hqs : q + s ≤ p) :
    readAt ((padTo (writeAt (writeAt t 0 h4) p idxB)
      (p + idxB.length)).take (p + idxB.length)) q s = readAt t q s := by
  rw [readAt_truncate _ _ _ _ (by omega),
    readAt_writeAt_left _ _ _ _ _ hqs,
    readAt_writeAt_right _ _ _ _ _ (by rw [Nat.zero_add, hh]; exact hq)]

theorem vacuumResult_file_eq (db : DB) (now : Nat) :
    (vacuumResult db now).file =
      (padTo (writeAt (writeAt
        (db.index.foldl (vacuumStep db.file)
          (writeAt [] 0 createDefaultHeader, [], HEADER_SIZE)).1 0
        (vacuumResult db now).header)
        (vacuumResult db now).dataTail (encodeIndex (vacuumResult db now).index))
        ((vacuumResult db now).dataTail +
          (encodeIndex (vacuumResult db now).index).length)).take
        ((vacuumResult db now).dataTail +
          (encodeIndex (vacuumResult db now).index).length) := rfl

theorem synced_vacuumResult (db : DB) (now : Nat) (hj : db.journal = none)
    (hbound : nextLastModified now db.lastModified < 2 ^ 64) :
    Synced (vacuumResult db now) := by
  refine ⟨hj, ?_⟩
  have hofs : HEADER_SIZE ≤ (vacuumResult db now).dataTail :=
    vacuum_offset_mono db.file db.index (writeAt [] 0 createDefaultHeader) []
      HEADER_SIZE
  rw [vacuumResult_file_eq db now]
  show readUIntLE _ LOCATION_LAST_MODIFIED 8 = _
  rw [readUIntLE_vacuumFile _ _ _ _ _ _ (vacuumResult_header_length db now)
    (by decide) hofs (encodeIndex_length_pos _)]
  show headerLastModified (vacuumResult db now).header = _
  rw [show (vacuumResult db now).header = writeUIntLE (writeUIntLE
    (writeUIntLE (writeUIntLE createDefaultHeader
      (encodeIndex (vacuumResult db now).index).length LOCATION_INDEX_SIZE
      HEADER_INDEX_SIZE_BYTES) ((vacuumResult db now).dataTail - HEADER_SIZE)
      LOCATION_DATA_SIZE HEADER_DATA_SIZE_BYTES)
      (vacuumResult db now).lastModified LOCATION_LAST_MODIFIED 8)
      (vacuumResult db now).lastModified LOCATION_LAST_VACUUM_TIMESTAMP 8 from rfl]
  unfold headerLastModified
  rw [readUIntLE_writeUIntLE_left _ _ _ _ _ _ (by decide),
    readUIntLE_writeUIntLE_self,
    show (256 : Nat) ^ 8 = 2 ^ 64 from by norm_num]
  exact Nat.mod_eq_of_lt hbound

/-! ## Claim C5 (corrected)

`vacuum` repacks the live values densely in index insertion order.  The
values' bytes and the key set are preserved, and `last_vacuum` is set to
`nextLastModified()`.  But the claimed `file_size ≤ pre-vacuum size` is
false: insertion order is not offset order after an overwrite, so repacking
can move an entry's offset *up* across a CBOR length boundary (e.g. past
256), making the re-encoded index longer than the bytes reclaimed from dead
values.  The run below grows the file from 297 to 298 bytes. -/

def c5pre : DB :=
  getOk (write (getOk (write (getOk (write (getOk
    (write db0 [65] (Val.vint 1) 0))
    [66] (Val.vstr (List.replicate 9 120)) 0))
    [67] (Val.vstr (List.replicate 9 120)) 0))
    [65] (Val.vstr (List.replicate 218 120)) 0)

def c5post : DB := getOk (vacuum c5pre 0)

/-- Counterexample to C5 as stated: a committed, garbage-free 297-byte
database (`write A; write B; write C; write A` with value sizes 1, 10, 10,
220) which `vacuum` rewrites to 298 bytes — the post-vacuum file is larger
than the pre-vacuum file. -/
theorem C5_counterexample :
    vacuum c5pre 0 = .ok c5post ∧
    c5pre.file.length = 297 ∧
    HEADER_SIZE + headerDataSize c5pre.header + headerIndexSize c5pre.header = 297 ∧
    c5post.file.length = 298 :=
  ⟨rfl, by decide, by decide, by decide⟩

/-- C5 amended: after a successful `vacuum` on a synced handle (with
distinct index keys and the timestamp below the 64-bit field bound), the set
of key-to-value pairs observable via `read` is unchanged and `last_vacuum`
advances to the new `nextLastModified()` value; the resulting file size,
however, is NOT always ≤ the pre-vacuum size (see the counterexample) — the
file is exactly the truncated dense image, which can be larger. -/
theorem C5_amended_vacuum_preserves_reads (db : DB) (now : Nat)
    (hs : Synced db) (hnodup : (db.index.map (fun x => x.1)).Nodup)
    (hbound : nextLastModified now db.lastModified < 2 ^ 64) :
    vacuum db now = .ok (vacuumResult db now) ∧
    headerLastVacuum (vacuumResult db now).header =
      nextLastModified now db.lastModified ∧
    (∀ k, validateKey k = true →
      (read (vacuumResult db now) k).map (fun p => p.2) =
        (read db k).map (fun p => p.2)) := by
  have hsync2 := synced_vacuumResult db now hs.1 hbound
  refine ⟨vacuum_ok db now hs, ?_, ?_⟩
  · rw [headerLastVacuum_vacuumResult, Nat.mod_eq_of_lt hbound]
  · intro k hk
    obtain ⟨hA, hB, hC, hD, hE⟩ := vacuumLoop_spec db.file db.index
      (writeAt [] 0 createDefaultHeader) [] HEADER_SIZE
      (by intro x hx; exact absurd hx (List.not_mem_nil x))
      (le_refl _) hnodup
      (by intro x _; rfl)
    unfold read
    rw [if_neg (by simp [hk]), recover_of_synced _ hsync2, except_bind_ok,
      sync_of_synced _ hsync2 false, except_bind_ok,
      if_neg (by simp [hk]), recover_of_synced _ hs, except_bind_ok,
      sync_of_synced _ hs false, except_bind_ok]
    cases hcase : lookupEntry db.index k with
    | none =>
      have havoid : ∀ x ∈ db.index, x.1 ≠ k := by
        have h2 := List.any_eq_false.mp ((lookupEntry_eq_none_iff _ _).mp hcase)
        intro x hx
        simpa using h2 x hx
      have hnone : lookupEntry (vacuumResult db now).index k = none := hC k havoid
      simp only [hcase, hnone]
      rfl
    | some v =>
      obtain ⟨off, sz⟩ := v
      have hmem : (k, (off, sz)) ∈ db.index := lookupEntry_some_mem _ _ _ hcase
      obtain ⟨no, hlk, h36, hno, hbytes⟩ := hD (k, (off, sz)) hmem
      have hlk2 : lookupEntry (vacuumResult db now).index k = some (no, sz) := hlk
      have hno2 : no + sz ≤ (vacuumResult db now).dataTail := hno
      have hfile_bytes : readAt (vacuumResult db now).file no sz =
          readAt db.file off sz := by
        rw [vacuumResult_file_eq db now,
          readAt_vacuumFile _ _ _ _ _ _ (vacuumResult_header_length db now) h36 hno2]
        exact hbytes
      simp only [hcase, hlk2, hfile_bytes]
      cases hdec : decodeVal (readAt db.file off sz) with
      | none => simp [hdec]
      | some v2 => simp [hdec, pure, Except.pure]

/-- Witness for the amended C5: the counterexample run itself — the pairs
survive and `last_vacuum` advances even though the file grew. -/
theorem C5_amended_witness :
    vacuum c5pre 0 = .ok (vacuumResult c5pre 0) ∧
    headerLastVacuum (vacuumResult c5pre 0).header =
      nextLastModified 0 c5pre.lastModified ∧
    (∀ k, validateKey k = true →
      (read (vacuumResult c5pre 0) k).map (fun p => p.2) =
        (read c5pre k).map (fun p => p.2)) :=
  C5_amended_vacuum_preserves_reads c5pre 0 (by decide) (by decide) (by decide)

end JSONBLite
